import Mathlib

/-!
# Session layer of node-smpp (`lib/smpp.js`)

A shallow embedding of the `Session` class of `lib/smpp.js`: the frame
extraction loop `_extractPDUs`, `send` with its sequence counter and correlation
table, `pause` / `resume` / `connect`, and the keepalive timer with its setter
and the socket handlers that clear it; of the registry kept by `Server` and
`SecureServer` and of their `listen` methods; and of the function `connect` up
to the construction of the session.

Conventions of the embedding.

* Octets are natural numbers; a socket carries the list of octets received and
  not yet read, and the list of buffers written.
* A JavaScript value that is only ever tested for truthiness is represented by
  its truthy content: `_command_length` is `none` for `null` / `false`, a PDU
  `sequence_number` of `0` stands for "not set".
* The session counter is a JavaScript number; it is modelled by a natural
  number, which is exact for every value the code can store in it.
* Listeners registered on the session are outside the model: every `emit`, every
  call of a completion handle and every call of a `sendCallback` is recorded, in
  order, in a list of effects, and is assumed not to call back into the session
  while the recording function runs. One thing about them is kept: whether the
  session has a listener for `error` when the socket handler of `error` runs,
  since `emit('error', e)` throws without one and the rest of that handler is
  skipped. In `_extractPDUs` the same `emit` is followed by `return` only, so
  that the session is left the same whether it throws or not.
* The promise created by `send` is identified with the `resolve` function its
  executor receives, a `Handle`.
-/

namespace Smpp

/-- Identity of a `resolve` function, that is of the promise it settles. -/
abbrev Handle := Nat

/-- Modelled from the spec: the class `PDU` of `./pdu` is not among the sources.
Section 3 of the specification gives a frame a command identifier, a sequence
number, a request / response classification and a body payload opaque to the
session. The command is kept by its name, which `_extractPDUs` uses as event
name; the sequence number is `0` when not set. -/
structure PDU where
  command : String
  sequence_number : Nat
  response : Bool
  body : List Nat
deriving DecidableEq

/-- Modelled from the spec: the method `pdu.isResponse()` of the missing class
`PDU`, the classification `isResponse(frame) -> boolean` of section 6. -/
def PDU.isResponse (pdu : PDU) : Bool := pdu.response

/-- Modelled from the spec: the PDU codec (`./pdu`, `./defs`) is not among the
sources. Following section 6 of the specification it is given by the size of the
fixed-size length header, the parser of that header (which may throw), the
decoder of a frame from its announced length and the octets after the header
(which may throw), the encoder `toBuffer`, and the constructor
`new PDU(command, options)` used by the shortcut methods. -/
structure Codec where
  headerSize : Nat
  headerSize_pos : 0 < headerSize
  parseLength : List Nat → Except String Nat
  decode : Nat → List Nat → Except String PDU
  toBuffer : PDU → List Nat
  newPDU : String → PDU

/-- The socket of a session: the `writable` flag, the octets received and not
yet read, the buffers passed to `write` (oldest first) and the completion
callbacks of those writes that have not run yet (oldest first), each holding the
PDU it closes over and the optional `sendCallback`. -/
structure Socket where
  writable : Bool
  readBuffer : List Nat
  written : List (List Nat)
  writeCallbacks : List (PDU × Option Nat)
deriving DecidableEq

/-- The call `socket.read(n)`: `null` when `n` is `0` or when fewer than `n` octets
are buffered, otherwise the first `n` octets, which are removed from the
buffer. -/
def Socket.read (sock : Socket) (n : Nat) : Option (List Nat × Socket) :=
  if n = 0 ∨ sock.readBuffer.length < n then none
  else some (sock.readBuffer.take n, { sock with readBuffer := sock.readBuffer.drop n })

/-- The call `socket.write(buffer, callback)`. -/
def Socket.write (sock : Socket) (buffer : List Nat) (callback : PDU × Option Nat) : Socket :=
  { sock with written := sock.written ++ [buffer],
              writeCallbacks := sock.writeCallbacks ++ [callback] }

/-- Modelled from the spec: `PDU.commandLength(stream)` of the missing codec,
"consumes the fixed-size length header only if fully present". The result is
the value returned (`none` for insufficient data) or the error thrown, together
with the stream afterwards. -/
def PDU.commandLength (c : Codec) (sock : Socket) : Except String (Option Nat) × Socket :=
  match sock.read c.headerSize with
  | none => (.ok none, sock)
  | some (header, sock1) =>
    match c.parseLength header with
    | .ok len => (.ok (some len), sock1)
    | .error e => (.error e, sock1)

/-- Modelled from the spec: `PDU.fromStream(stream, command_length)` of the
missing codec, "consumes exactly one frame once its full length is available":
the header being consumed already, the remaining `command_length - headerSize`
octets are read and decoded. -/
def PDU.fromStream (c : Codec) (sock : Socket) (command_length : Nat) :
    Except String (Option PDU) × Socket :=
  match sock.read (command_length - c.headerSize) with
  | none => (.ok none, sock)
  | some (rest, sock1) =>
    match c.decode command_length rest with
    | .ok pdu => (.ok (some pdu), sock1)
    | .error e => (.error e, sock1)

/-- The fields of `Session` set by its constructor. `_callbacks` is the sparse
array of completion handles, kept as a list of (sequence number, handle) pairs;
`_interval` is `0` or the identity of the installed interval timer. -/
structure Session where
  sequence : Nat
  paused : Bool
  _busy : Bool
  _callbacks : List (Nat × Handle)
  _interval : Nat
  _command_length : Option Nat
  socket : Socket
deriving DecidableEq

/-- The state set up by `new Session({socket})`. -/
def Session.new (sock : Socket) : Session :=
  { sequence := 0, paused := false, _busy := false, _callbacks := [],
    _interval := 0, _command_length := none, socket := sock }

/-- Reading `this._callbacks[n]`. -/
def getCallback (t : List (Nat × Handle)) (n : Nat) : Option Handle :=
  t.lookup n

/-- The statement `delete this._callbacks[n]`. -/
def deleteCallback (t : List (Nat × Handle)) (n : Nat) : List (Nat × Handle) :=
  t.filter (fun e => e.1 != n)

/-- The assignment `this._callbacks[n] = resolve`: an entry already stored under
`n` is replaced. -/
def setCallback (t : List (Nat × Handle)) (n : Nat) (resolve : Handle) : List (Nat × Handle) :=
  (n, resolve) :: deleteCallback t n

/-- What the session does to the outside, in order of occurrence: an event
emitted with a PDU, the `error` event, the call of a completion handle, the call
of a `sendCallback`, and an event emitted without argument (`close`). -/
inductive Effect where
  | emit (event : String) (pdu : PDU)
  | emitError (e : String)
  | call (h : Handle) (pdu : PDU)
  | sendCallback (cb : Nat) (pdu : PDU)
  | signal (event : String)
deriving DecidableEq

/-- JavaScript falsiness of the stored `_command_length`: `null`, `false`, `0`. -/
def falsy : Option Nat → Bool
  | some (_ + 1) => false
  | _ => true

/-- Outcome of the `try` block of one pass through the loop of
`_extractPDUs`. -/
inductive TryResult where
  | stop (s : Session)
  | thrown (s : Session) (e : String)
  | decoded (s : Session) (pdu : PDU)

/-- Second half of the `try` block: `PDU.fromStream(this.socket,
this._command_length)`. -/
def Session.tryFromStream (c : Codec) (s : Session) : TryResult :=
  match PDU.fromStream c s.socket (s._command_length.getD 0) with
  | (.error e, sock) => .thrown { s with socket := sock } e
  | (.ok none, sock) => .stop { s with socket := sock }
  | (.ok (some pdu), sock) => .decoded { s with socket := sock } pdu

/-- The `try` block of the loop of `_extractPDUs`. -/
def Session.tryRead (c : Codec) (s : Session) : TryResult :=
  if falsy s._command_length then
    match PDU.commandLength c s.socket with
    | (.error e, sock) => .thrown { s with socket := sock } e
    | (.ok len, sock) =>
      let s1 := { s with socket := sock, _command_length := len }
      if falsy len then .stop s1 else s1.tryFromStream c
  else s.tryFromStream c

/-- The statements of the loop body after the `try` block, for a decoded
`pdu`. -/
def Session.dispatch (s : Session) (pdu : PDU) : Session × List Effect :=
  let s1 := { s with _command_length := none }
  let notes := [Effect.emit "pdu" pdu, Effect.emit pdu.command pdu]
  if pdu.isResponse then
    match getCallback s1._callbacks pdu.sequence_number with
    | some h =>
      ({ s1 with _callbacks := deleteCallback s1._callbacks pdu.sequence_number },
        notes ++ [Effect.call h pdu])
    | none => (s1, notes)
  else (s1, notes)

/-- The `while (!this.paused)` loop of `_extractPDUs` together with the final
`this._busy = false`, with a bound on the number of passes. -/
def Session.extractLoop (c : Codec) : Nat → Session → Session × List Effect
  | 0, s => (s, [])
  | fuel + 1, s =>
    if s.paused then ({ s with _busy := false }, [])
    else
      match s.tryRead c with
      | .stop s1 => ({ s1 with _busy := false }, [])
      | .thrown s1 e => (s1, [Effect.emitError e])
      | .decoded s1 pdu =>
        let r := s1.dispatch pdu
        let rest := Session.extractLoop c fuel r.1
        (rest.1, r.2 ++ rest.2)

/-- Number of passes after which the loop has certainly left: every pass that
decodes a frame after the first consumes a header. -/
def Session.passes (s : Session) : Nat := s.socket.readBuffer.length + 2

/-- The method `_extractPDUs()`. -/
def Session._extractPDUs (c : Codec) (s : Session) : Session × List Effect :=
  if s._busy then (s, [])
  else Session.extractLoop c s.passes { s with _busy := true }

/-- Return value of `send`: `false`, or the promise whose executor received
`resolve`. -/
inductive SendResult where
  | failed
  | promise (resolve : Handle)
deriving DecidableEq

/-- The method `send(pdu, sendCallback)`; `resolve` is the argument the promise
executor is called with. Returns the value returned, the session afterwards and
the PDU afterwards (`send` assigns to `pdu.sequence_number`). -/
def Session.send (c : Codec) (s : Session) (pdu : PDU) (sendCallback : Option Nat)
    (resolve : Handle) : SendResult × Session × PDU :=
  if !s.socket.writable then (.failed, s, pdu)
  else
    let sp : Session × PDU :=
      if !pdu.isResponse then
        let sp1 : Session × PDU :=
          if pdu.sequence_number == 0 then
            let s0 := if s.sequence == 0x7FFFFFFF then { s with sequence := 0 } else s
            ({ s0 with sequence := s0.sequence + 1 },
              { pdu with sequence_number := s0.sequence + 1 })
          else (s, pdu)
        ({ sp1.1 with _callbacks := setCallback sp1.1._callbacks sp1.2.sequence_number resolve },
          sp1.2)
      else (s, pdu)
    (.promise resolve,
      { sp.1 with socket := sp.1.socket.write (c.toBuffer sp.2) (sp.2, sendCallback) },
      sp.2)

/-- The completion callback of the oldest pending `socket.write`: it emits
`send` and calls the `sendCallback` when there is one. -/
def Session.writeDone (s : Session) : Session × List Effect :=
  match s.socket.writeCallbacks with
  | [] => (s, [])
  | (pdu, cb) :: rest =>
    ({ s with socket := { s.socket with writeCallbacks := rest } },
      Effect.emit "send" pdu ::
        (match cb with
         | some f => [Effect.sendCallback f pdu]
         | none => []))

/-- The method `pause()`. -/
def Session.pause (s : Session) : Session := { s with paused := true }

/-- The method `resume()`. -/
def Session.resume (c : Codec) (s : Session) : Session × List Effect :=
  Session._extractPDUs c { s with paused := false }

/-- The method `connect()`; the socket reconnects, which the model leaves to the
environment. -/
def Session.connect (s : Session) : Session :=
  { s with sequence := 0, paused := false, _busy := false, _callbacks := [] }

/-- Octets arrive on the socket and its `readable` event runs the handler
installed by the constructor, `_extractPDUs`. -/
def Session.readable (c : Codec) (s : Session) (chunk : List Nat) : Session × List Effect :=
  Session._extractPDUs c
    { s with socket := { s.socket with readBuffer := s.socket.readBuffer ++ chunk } }

/-- The shortcut method made by `createShortcut(command)` for a command of
`defs.commands`, called as the timer does, without arguments. -/
def Session.shortcut (c : Codec) (command : String) (s : Session) (resolve : Handle) :
    SendResult × Session × PDU :=
  s.send c (c.newPDU command) none resolve

/-- The callback installed by the setter `auto_enquire_link_period`:
`this.enquire_link().catch(...)`. Calling `.catch` on `false` throws a
`TypeError`; on a promise it registers the logging handler. -/
def Session.keepaliveTick (c : Codec) (s : Session) (resolve : Handle) :
    Except String Session × Session :=
  match s.shortcut c "enquire_link" resolve with
  | (.failed, s1, _) => (.error "TypeError: this.enquire_link(...).catch is not a function", s1)
  | (.promise _, s1, _) => (.ok s1, s1)

/-- The allocation performed by `send` on the counter: reset at `0x7FFFFFFF`,
then pre-increment. -/
def nextSequence (n : Nat) : Nat := if n == 0x7FFFFFFF then 1 else n + 1

/-- The codec encodes `pdu` as a frame: the encoding is longer than the length
header, the header announces the length of the whole encoding, and the octets
after the header decode to `pdu`. -/
def Codec.Encodes (c : Codec) (pdu : PDU) : Prop :=
  c.headerSize < (c.toBuffer pdu).length ∧
  c.parseLength ((c.toBuffer pdu).take c.headerSize) = .ok (c.toBuffer pdu).length ∧
  c.decode (c.toBuffer pdu).length ((c.toBuffer pdu).drop c.headerSize) = .ok pdu

/-- The notifications and the completion that the loop of `_extractPDUs`
produces for the decoded frames `pdus`, starting from the correlation table
`t`: per frame the `pdu` event, the command event and, for a response with a
pending entry, the call of its handle. -/
def frameEffects : List (Nat × Handle) → List PDU → List Effect
  | _, [] => []
  | t, pdu :: rest =>
    [Effect.emit "pdu" pdu, Effect.emit pdu.command pdu] ++
      (if pdu.isResponse then
        match getCallback t pdu.sequence_number with
        | some h => Effect.call h pdu :: frameEffects (deleteCallback t pdu.sequence_number) rest
        | none => frameEffects t rest
      else frameEffects t rest)

/-- The correlation table after the frames `pdus` have been dispatched. -/
def frameCallbacks : List (Nat × Handle) → List PDU → List (Nat × Handle)
  | t, [] => t
  | t, pdu :: rest =>
    if pdu.isResponse then
      match getCallback t pdu.sequence_number with
      | some _ => frameCallbacks (deleteCallback t pdu.sequence_number) rest
      | none => frameCallbacks t rest
    else frameCallbacks t rest

/-- Whether the handle `h` is called somewhere in a list of effects. -/
def calls (h : Handle) (effects : List Effect) : Bool :=
  effects.any fun e =>
    match e with
    | .call h1 _ => h1 == h
    | _ => false

/-- Big-endian encoding of a length in four octets. -/
def be32 (n : Nat) : List Nat :=
  [n / 16777216 % 256, n / 65536 % 256, n / 256 % 256, n % 256]

/-- Value of four octets read as a big-endian number. -/
def fromBe32 (a b c d : Nat) : Nat := ((a * 256 + b) * 256 + c) * 256 + d

/-- A codec with the SMPP header layout, used to run the session on concrete
octets: four octets of `command_length` (big-endian, at most 16384), four of
`command_id` (`0x00000015` for `enquire_link`, `0x80000015` for
`enquire_link_resp`), four of `command_status`, four of `sequence_number`, then
the body. -/
def sampleCodec : Codec where
  headerSize := 4
  headerSize_pos := by decide
  parseLength := fun header =>
    match header with
    | [a, b, c, d] =>
      if fromBe32 a b c d > 16384 then .error "PDU length was too large"
      else .ok (fromBe32 a b c d)
    | _ => .error "short header"
  decode := fun _ rest =>
    match rest with
    | i0 :: i1 :: i2 :: i3 :: _ :: _ :: _ :: _ :: q0 :: q1 :: q2 :: q3 :: body =>
      if fromBe32 i0 i1 i2 i3 == 0x00000015 then
        .ok (PDU.mk "enquire_link" (fromBe32 q0 q1 q2 q3) false body)
      else if fromBe32 i0 i1 i2 i3 == 0x80000015 then
        .ok (PDU.mk "enquire_link_resp" (fromBe32 q0 q1 q2 q3) true body)
      else .error "unknown command"
    | _ => .error "truncated PDU"
  toBuffer := fun pdu =>
    be32 (pdu.body.length + 16) ++ be32 (if pdu.response then 0x80000015 else 0x00000015)
      ++ be32 0 ++ be32 pdu.sequence_number ++ pdu.body
  newPDU := fun command =>
    { command := command, sequence_number := 0, response := false, body := [] }

/-- A connected, writable socket with nothing buffered. -/
def sampleSocket : Socket :=
  { writable := true, readBuffer := [], written := [], writeCallbacks := [] }

/-- A request without sequence number. -/
def sampleRequest : PDU :=
  { command := "enquire_link", sequence_number := 0, response := false, body := [] }

/-- A response carrying sequence number `n`. -/
def sampleResponse (n : Nat) : PDU :=
  { command := "enquire_link_resp", sequence_number := n, response := true, body := [] }

/-- A session whose correlation table holds one entry, registered under sequence
number 1 by a `send` of a PDU carrying that number already (the relay case). -/
def relaySession : Session :=
  ((Session.new sampleSocket).send sampleCodec { sampleRequest with sequence_number := 1 }
    none 7).2.1

/-- Bound used to show that the loop of `_extractPDUs` leaves: the octets
buffered, plus one while a frame length is pending. -/
def Session.pending (s : Session) : Nat :=
  s.socket.readBuffer.length + (if falsy s._command_length then 0 else 1)

/-- The chunks arrive one after the other, each followed by the `readable`
handler; the effects are kept per chunk. -/
def Session.deliver (c : Codec) : Session → List (List Nat) → Session × List (List Effect)
  | s, [] => (s, [])
  | s, chunk :: rest =>
    let r := s.readable c chunk
    let rs := Session.deliver c r.1 rest
    (rs.1, r.2 :: rs.2)

/-- The events a session reacts to and the methods called on it. -/
inductive Op where
  | readable (chunk : List Nat)
  | send (pdu : PDU) (sendCallback : Option Nat) (resolve : Handle)
  | writeDone
  | pause
  | resume
  | connect
deriving DecidableEq

/-- One event or method call. -/
def Session.step (c : Codec) (s : Session) : Op → Session × List Effect
  | .readable chunk => s.readable c chunk
  | .send pdu cb resolve => ((s.send c pdu cb resolve).2.1, [])
  | .writeDone => s.writeDone
  | .pause => (s.pause, [])
  | .resume => s.resume c
  | .connect => (s.connect, [])

/-- A sequence of events and method calls, with the effects in order. -/
def Session.run (c : Codec) : Session → List Op → Session × List Effect
  | s, [] => (s, [])
  | s, op :: ops =>
    let r := s.step c op
    let rs := Session.run c r.1 ops
    (rs.1, r.2 ++ rs.2)

/-- The resolve function an operation hands to the session, if any. -/
def Op.handle : Op → Option Handle
  | .send _ _ resolve => some resolve
  | _ => none

/-- The PDUs announced by the generic `pdu` event in a list of effects. -/
def pduEvents : List Effect → List PDU
  | [] => []
  | .emit event pdu :: rest => if event == "pdu" then pdu :: pduEvents rest else pduEvents rest
  | _ :: rest => pduEvents rest

/-- Number of `error` events in a list of effects. -/
def errorCount : List Effect → Nat
  | [] => 0
  | .emitError _ :: rest => errorCount rest + 1
  | _ :: rest => errorCount rest

/-- The session a `try` block leaves behind, whatever its outcome. -/
def TryResult.session : TryResult → Session
  | .stop s => s
  | .thrown s _ => s
  | .decoded s _ => s

/-- No entry of the correlation table holds the handle `h`. -/
def lacks (t : List (Nat × Handle)) (h : Handle) : Prop := ∀ e ∈ t, e.2 ≠ h

/-- The idle session `s` after the first octets `received` of a frame of `total`
octets have arrived and `_extractPDUs` has run on them: they wait in the buffer
while the header is incomplete; afterwards the header is consumed and its length
is pending. -/
def Session.partialFrame (c : Codec) (s : Session) (total : Nat) (received : List Nat) :
    Session :=
  if received.length < c.headerSize then
    { s with socket := { s.socket with readBuffer := received } }
  else
    { s with socket := { s.socket with readBuffer := received.drop c.headerSize },
             _command_length := some total }

/-- The events and calls that concern the extraction loop only: arrival of
octets, `pause()` and `resume()`. -/
def Op.isSignal : Op → Bool
  | .readable _ => true
  | .pause => true
  | .resume => true
  | _ => false

/-- The statements of the loop body after the `try` block (lines 91 to 97)
executed one after the other, each effect being listed with the session as it is
when the effect occurs: the pending length is cleared first, then come the two
`emit` calls, then, for a response with an entry, the call of the handle and
only after it the deletion of the entry. Returns the session afterwards and the
listed effects. -/
def Session.dispatchSteps (s : Session) (pdu : PDU) : Session × List (Session × Effect) :=
  let s1 := { s with _command_length := none }
  let notes := [(s1, Effect.emit "pdu" pdu), (s1, Effect.emit pdu.command pdu)]
  if pdu.isResponse then
    match getCallback s1._callbacks pdu.sequence_number with
    | some h =>
      ({ s1 with _callbacks := deleteCallback s1._callbacks pdu.sequence_number },
        notes ++ [(s1, Effect.call h pdu)])
    | none => (s1, notes)
  else (s1, notes)

/-- The loop of `_extractPDUs` with the final `this._busy = false`, as
`Session.extractLoop`, each effect being listed with the session as it is when
the effect occurs. -/
def Session.extractLoopSteps (c : Codec) : Nat → Session → Session × List (Session × Effect)
  | 0, s => (s, [])
  | fuel + 1, s =>
    if s.paused then ({ s with _busy := false }, [])
    else
      match s.tryRead c with
      | .stop s1 => ({ s1 with _busy := false }, [])
      | .thrown s1 e => (s1, [(s1, Effect.emitError e)])
      | .decoded s1 pdu =>
        let r := s1.dispatchSteps pdu
        let rest := Session.extractLoopSteps c fuel r.1
        (rest.1, r.2 ++ rest.2)

/-- The method `_extractPDUs()`, each effect being listed with the session as it
is when the effect occurs. -/
def Session.extractSteps (c : Codec) (s : Session) : Session × List (Session × Effect) :=
  if s._busy then (s, [])
  else Session.extractLoopSteps c s.passes { s with _busy := true }

/-- Octets arrive and the `readable` handler runs, each effect being listed with
the session as it is when the effect occurs. -/
def Session.readableSteps (c : Codec) (s : Session) (chunk : List Nat) :
    Session × List (Session × Effect) :=
  Session.extractSteps c
    { s with socket := { s.socket with readBuffer := s.socket.readBuffer ++ chunk } }

/-! ### Server and SecureServer -/

/-- The method `Array.prototype.indexOf`: the first index of `x`, or `-1`. -/
def jsIndexOf (xs : List Nat) (x : Nat) : Int :=
  if x ∈ xs then (xs.indexOf x : Int) else -1

/-- The method `Array.prototype.splice(start, deleteCount)` without inserted
items: a negative `start` counts from the end of the array, and the result is
the array that is left. -/
def jsSplice (xs : List Nat) (start : Int) (deleteCount : Nat) : List Nat :=
  let first : Nat :=
    if start < 0 then ((xs.length : Int) + start).toNat else min start.toNat xs.length
  xs.take first ++ xs.drop (first + deleteCount)

/-- The registry of a `Server` or of a `SecureServer`, whose constructors hold
the same connection listener: the array `sessions`. A session object is
represented by its identity, which is all `indexOf` looks at. -/
structure Server where
  sessions : List Nat
deriving DecidableEq

/-- The assignment `this.sessions = []` of the constructor. -/
def Server.new : Server := { sessions := [] }

/-- The connection listener for an accepted socket wrapped in `session`:
`this.sessions.push(session)`. -/
def Server.connection (srv : Server) (session : Nat) : Server :=
  { sessions := srv.sessions ++ [session] }

/-- The handler of the socket event `close` installed by the connection listener
for `session`: `this.sessions.splice(this.sessions.indexOf(session), 1)`. -/
def Server.closeHandler (srv : Server) (session : Nat) : Server :=
  { sessions := jsSplice srv.sessions (jsIndexOf srv.sessions session) 1 }

/-- What happens to a server: a connection is accepted and wrapped in a new
session, or the socket of a session closes. -/
inductive ServerEvent where
  | connection (session : Nat)
  | close (session : Nat)
deriving DecidableEq

/-- One event. -/
def Server.handle (srv : Server) : ServerEvent → Server
  | .connection x => srv.connection x
  | .close x => srv.closeHandler x

/-- A sequence of events. -/
def Server.history (srv : Server) : List ServerEvent → Server
  | [] => srv
  | e :: rest => Server.history (srv.handle e) rest

/-- The sessions accepted in a sequence of events, in order of acceptance. -/
def acceptedSessions : List ServerEvent → List Nat
  | [] => []
  | .connection x :: rest => x :: acceptedSessions rest
  | .close _ :: rest => acceptedSessions rest

/-- The sessions whose socket closed in a sequence of events. -/
def closedSessions : List ServerEvent → List Nat
  | [] => []
  | .connection _ :: rest => closedSessions rest
  | .close x :: rest => x :: closedSessions rest

/-- The sessions accepted and not yet closed, in order of acceptance. -/
def openSessions (events : List ServerEvent) : List Nat :=
  (acceptedSessions events).filter fun x => !(closedSessions events).contains x

/-- A sequence of events that can follow the acceptance of `accepted` and the
closing of `closed`: every connection brings a new session object, and a socket
closes once, after it was accepted. -/
def orderly : List Nat → List Nat → List ServerEvent → Bool
  | _, _, [] => true
  | accepted, closed, .connection x :: rest =>
    !accepted.contains x && orderly (accepted ++ [x]) closed rest
  | accepted, closed, .close x :: rest =>
    accepted.contains x && !closed.contains x && orderly accepted (closed ++ [x]) rest

/-- First argument of `listen`, by its `typeof`: `undefined`, a function, an
object (an options object with its `port`), or anything else. -/
inductive ListenArg where
  | undefined
  | function (callback : Nat)
  | object (port : Option Nat)
  | other
deriving DecidableEq

/-- The method `Server.listen(opts, callback)`: the options and the callback
handed to `net.Server.prototype.listen`, or the failed assertion. -/
def Server.listen (opts : ListenArg) (callback : Option Nat) :
    Except String (ListenArg × Option Nat) :=
  match opts with
  | .undefined => .ok (.object (some 2775), none)
  | .function f => .ok (.object (some 2775), some f)
  | .object port => .ok (.object port, callback)
  | .other => .error "listen: must pass object"

/-- The method `SecureServer.listen(opts, callback)`: the options and the
callback handed to `tls.Server.prototype.listen`, or the failed assertion. -/
def SecureServer.listen (opts : ListenArg) (callback : Option Nat) :
    Except String (ListenArg × Option Nat) :=
  match opts with
  | .undefined => .ok (.object (some 3550), none)
  | .function f => .ok (.object (some 3550), some f)
  | .object port => .ok (.object port, callback)
  | .other => .error "listen: must pass object"

/-- The argument of `connect`, by its `typeof`: a string or anything else. -/
inductive JsArg where
  | string (s : String)
  | other
deriving DecidableEq

/-- The method `String.prototype.startsWith`, for the search strings used here. -/
def jsStartsWith (s search : String) : Bool := search.toList.isPrefixOf s.toList

/-- The fields that `connect` reads in the object returned by `url.parse`; a
field is `none` when it is `null`. -/
structure UrlObject where
  protocol : Option String
  hostname : Option String
  port : Option String
deriving DecidableEq

/-- The value of `opts.port`: the text found in the URL, or a default number. -/
inductive PortValue where
  | text (s : String)
  | number (n : Nat)
deriving DecidableEq

/-- The options with which `connect` constructs the session. -/
structure ConnectOptions where
  host : Option String
  port : PortValue
  tls : Bool
deriving DecidableEq

/-- The function `connect(url)` up to the construction of the session: the
assertion that failed, in which case nothing else has run, or the options given
to `new Session(opts)`, which opens the socket with `transport.connect(port,
host)`, the transport being `tls` when `opts.tls` holds. The function
`url.parse` of Node is a parameter. -/
def connect (parse : String → UrlObject) (url : JsArg) : Except String ConnectOptions :=
  match url with
  | .other => .error "connect(): url is required"
  | .string text =>
    if !(jsStartsWith text "smpp://" || jsStartsWith text "ssmpp://") then
      .error "url scheme must be smpp or ssmpp"
    else
      let u := parse text
      let tls := u.protocol == some "ssmpp:"
      let port :=
        match u.port with
        | some p => if p == "" then PortValue.number (if tls then 3550 else 2775) else .text p
        | none => PortValue.number (if tls then 3550 else 2775)
      .ok { host := u.hostname, port := port, tls := tls }

/-- A stand-in for `url.parse` on URLs of the form `scheme://host` or
`scheme://host:port`, used to run `connect` on concrete URLs. -/
def sampleParse (url : String) : UrlObject :=
  let scheme := url.toList.takeWhile (fun ch => ch != ':')
  let authority := ((url.toList.dropWhile (fun ch => ch != ':')).drop 3).takeWhile
    (fun ch => ch != '/')
  let host := authority.takeWhile (fun ch => ch != ':')
  let port := (authority.dropWhile (fun ch => ch != ':')).drop 1
  { protocol := some (String.mk (scheme ++ [':'])),
    hostname := some (String.mk host),
    port := if port.isEmpty then none else some (String.mk port) }

/-- A session together with the interval timers of Node: the identities of the
timers created by `setInterval` and not cleared, and the number of timers created
so far, from which the identity of the next one is taken (never `0`). -/
structure TimedSession where
  session : Session
  timers : List Nat
  created : Nat
deriving DecidableEq

/-- The function `clearInterval(id)`. -/
def TimedSession.clearInterval (w : TimedSession) (id : Nat) : TimedSession :=
  { w with timers := w.timers.filter (fun t => t != id) }

/-- The setter `auto_enquire_link_period`: a timer already installed is cleared,
then a new one is created and kept in `_interval`. -/
def TimedSession.set_auto_enquire_link_period (w : TimedSession) (_val : Nat) :
    TimedSession :=
  let w1 := if w.session._interval != 0 then w.clearInterval w.session._interval else w
  { session := { w1.session with _interval := w1.created + 1 },
    timers := w1.timers ++ [w1.created + 1],
    created := w1.created + 1 }

/-- The handler of the socket event `close` installed by the constructor. -/
def TimedSession.onClose (w : TimedSession) : TimedSession × List Effect :=
  if w.session._interval != 0 then
    ({ w.clearInterval w.session._interval with
        session := { w.session with _interval := 0 } }, [Effect.signal "close"])
  else (w, [Effect.signal "close"])

/-- The handler of the socket event `error` installed by the constructor (lines
43 to 49). It starts with `this.emit('error', e)`, which, the session being an
`EventEmitter`, throws `e` when the session has no listener for `error`: the
statements that clear the timer are then not reached. `listening` tells whether
such a listener is registered. Returns the exception thrown out of the handler,
if any, the session afterwards and the effects. -/
def TimedSession.onError (w : TimedSession) (e : String) (listening : Bool) :
    Option String × TimedSession × List Effect :=
  if !listening then (some e, w, [Effect.emitError e])
  else if w.session._interval != 0 then
    (none, { w.clearInterval w.session._interval with
        session := { w.session with _interval := 0 } }, [Effect.emitError e])
  else (none, w, [Effect.emitError e])

/-- The timer `id` comes due: when it is still active its callback runs, the
keepalive tick; a cleared timer does nothing any more. -/
def TimedSession.fire (c : Codec) (w : TimedSession) (id : Nat) (resolve : Handle) :
    Option (Except String Session × TimedSession) :=
  if w.timers.contains id then
    some ((w.session.keepaliveTick c resolve).1,
      { w with session := (w.session.keepaliveTick c resolve).2 })
  else none

/-- A sequence of assignments to `auto_enquire_link_period`. -/
def TimedSession.assignAll (w : TimedSession) : List Nat → TimedSession
  | [] => w
  | val :: rest => TimedSession.assignAll (w.set_auto_enquire_link_period val) rest

/-- The only active timer is the one kept in `_interval`, if there is one. -/
def TimedSession.consistent (w : TimedSession) : Bool :=
  w.timers == if w.session._interval == 0 then [] else [w.session._interval]

/-- A newly constructed session: no timer yet. -/
def TimedSession.new (sock : Socket) : TimedSession :=
  { session := Session.new sock, timers := [], created := 0 }

/-- The session right after the `try` block has decoded a frame of `len` octets:
`len` is still kept in `_command_length`, and `left` is what the buffer holds
after the frame. -/
def Session.decodedAt (s : Session) (len : Nat) (left : List Nat) : Session :=
  { s with _command_length := some len, socket := { s.socket with readBuffer := left } }

/-- The idle session `s` as it enters the loop of `_extractPDUs` with `octets` in
the buffer: the re-entrancy guard is set. -/
def Session.entering (s : Session) (octets : List Nat) : Session :=
  { s with _busy := true, socket := { s.socket with readBuffer := octets } }

/-! ## The correlation table -/

theorem deleteCallback_of_get_none (t : List (Nat × Handle)) (n : Nat)
    (h : getCallback t n = none) : deleteCallback t n = t := by
  induction t with
  | nil => rfl
  | cons e t ih =>
    obtain ⟨k, v⟩ := e
    unfold getCallback at h ih
    unfold deleteCallback at ih ⊢
    by_cases hk : n = k
    · subst hk
      simp [List.lookup] at h
    · have hk2 : (n == k) = false := by simpa using hk
      have hk3 : (k != n) = true := by simpa using fun h1 => hk h1.symm
      simp only [List.lookup, hk2] at h
      simp [List.filter, hk3, ih h]

theorem getCallback_delete_self (t : List (Nat × Handle)) (n : Nat) :
    getCallback (deleteCallback t n) n = none := by
  induction t with
  | nil => rfl
  | cons e t ih =>
    obtain ⟨k, v⟩ := e
    unfold getCallback deleteCallback at *
    by_cases hk : k = n
    · simp [List.filter, hk, ih]
    · have hk3 : (k != n) = true := by simpa using hk
      have hk2 : (n == k) = false := by simpa using fun h1 => hk h1.symm
      simp [List.filter, hk3, List.lookup, hk2, ih]

theorem getCallback_delete_other (t : List (Nat × Handle)) (n k : Nat) (hk : k ≠ n) :
    getCallback (deleteCallback t n) k = getCallback t k := by
  induction t with
  | nil => rfl
  | cons e t ih =>
    obtain ⟨j, v⟩ := e
    unfold getCallback deleteCallback at *
    by_cases hj : j = n
    · subst hj
      have hkj : (k == j) = false := by simpa using hk
      simp [List.filter, List.lookup, hkj, ih]
    · have hj3 : (j != n) = true := by simpa using hj
      by_cases hkj : k = j
      · simp [List.filter, hj3, List.lookup, hkj]
      · have hkj2 : (k == j) = false := by simpa using hkj
        simp [List.filter, hj3, List.lookup, hkj2, ih]

/-! ## `send` -/

/-- C1. For a session whose counter is `s` with `1 ≤ s ≤ 0x7FFFFFFE`, `send` of a
non-response PDU without sequence number on a writable socket gives the PDU the
sequence number `s + 1` and leaves the counter at `s + 1`; when the counter is
`0x7FFFFFFF` the PDU gets `1` and the counter is left at `1`. -/
theorem send_auto_allocation (c : Codec) (s : Session) (pdu : PDU) (cb : Option Nat)
    (resolve : Handle) (hw : s.socket.writable = true) (hreq : pdu.isResponse = false)
    (hseq : pdu.sequence_number = 0) :
    (1 ≤ s.sequence ∧ s.sequence ≤ 0x7FFFFFFE →
      (s.send c pdu cb resolve).2.2.sequence_number = s.sequence + 1 ∧
      (s.send c pdu cb resolve).2.1.sequence = s.sequence + 1) ∧
    (s.sequence = 0x7FFFFFFF →
      (s.send c pdu cb resolve).2.2.sequence_number = 1 ∧
      (s.send c pdu cb resolve).2.1.sequence = 1) := by
  refine ⟨fun hs => ?_, fun hs => ?_⟩
  · have hne : (s.sequence == 0x7FFFFFFF) = false := by
      have : s.sequence ≠ 0x7FFFFFFF := by omega
      simpa using this
    simp [Session.send, hw, hreq, hseq, hne]
  · simp [Session.send, hw, hreq, hseq, hs]

/-- Witness of C1: a session whose counter is 41 allocates 42. -/
theorem send_auto_allocation_witness :
    ({ Session.new sampleSocket with sequence := 41 }.send sampleCodec sampleRequest
        none 9).2.2.sequence_number = 42 ∧
    ({ Session.new sampleSocket with sequence := 41 }.send sampleCodec sampleRequest
        none 9).2.1.sequence = 42 :=
  by
    have h := (send_auto_allocation sampleCodec { Session.new sampleSocket with sequence := 41 }
      sampleRequest none 9 rfl rfl rfl).1 ⟨by decide, by decide⟩
    simpa using h

/-- C3 fails as stated: in a session where sequence number 1 is still pending (it
was sent with that number set by the caller), the next automatic allocation is 1
as well; the table does not grow and the pending entry is replaced. -/
theorem send_collision_counterexample :
    getCallback relaySession._callbacks 1 = some 7 ∧
    (relaySession.send sampleCodec sampleRequest none 9).2.2.sequence_number = 1 ∧
    (relaySession.send sampleCodec sampleRequest none 9).2.1._callbacks.length
      ≠ relaySession._callbacks.length + 1 ∧
    getCallback (relaySession.send sampleCodec sampleRequest none 9).2.1._callbacks 1
      ≠ getCallback relaySession._callbacks 1 := by
  decide

/-- C3, amended. `send` of a non-response PDU without sequence number on a
writable socket moves the counter by exactly one allocation and gives that number
to the PDU; when no entry is pending under the allocated number, the correlation
table afterwards is the table before with one entry added, the handle under the
allocated number: it has exactly one entry more and every entry that was pending
is still there, unchanged. -/
theorem send_registers_one_entry (c : Codec) (s : Session) (pdu : PDU) (cb : Option Nat)
    (resolve : Handle) (hw : s.socket.writable = true) (hreq : pdu.isResponse = false)
    (hseq : pdu.sequence_number = 0)
    (hfree : getCallback s._callbacks (nextSequence s.sequence) = none) :
    (s.send c pdu cb resolve).2.1.sequence = nextSequence s.sequence ∧
    (s.send c pdu cb resolve).2.2.sequence_number = nextSequence s.sequence ∧
    (s.send c pdu cb resolve).2.1._callbacks
      = (nextSequence s.sequence, resolve) :: s._callbacks ∧
    (s.send c pdu cb resolve).2.1._callbacks.length = s._callbacks.length + 1 ∧
    getCallback (s.send c pdu cb resolve).2.1._callbacks (nextSequence s.sequence)
      = some resolve ∧
    ∀ k, k ≠ nextSequence s.sequence →
      getCallback (s.send c pdu cb resolve).2.1._callbacks k = getCallback s._callbacks k := by
  have hdel := deleteCallback_of_get_none _ _ hfree
  have hcb : (s.send c pdu cb resolve).2.1._callbacks
      = (nextSequence s.sequence, resolve) :: s._callbacks := by
    unfold nextSequence at hdel ⊢
    by_cases hmax : s.sequence = 0x7FFFFFFF
    · simp only [hmax, beq_self_eq_true, if_true] at hdel
      simp [Session.send, hw, hreq, hseq, hmax, setCallback, hdel, Socket.write]
    · have hne : (s.sequence == 0x7FFFFFFF) = false := by simpa using hmax
      simp only [hne] at hdel
      simp [Session.send, hw, hreq, hseq, hne, setCallback, Socket.write]
      simpa using hdel
  refine ⟨?_, ?_, hcb, ?_, ?_, ?_⟩
  · unfold nextSequence
    by_cases hmax : s.sequence = 0x7FFFFFFF
    · simp [Session.send, hw, hreq, hseq, hmax]
    · have hne : (s.sequence == 0x7FFFFFFF) = false := by simpa using hmax
      simp [Session.send, hw, hreq, hseq, hne]
  · unfold nextSequence
    by_cases hmax : s.sequence = 0x7FFFFFFF
    · simp [Session.send, hw, hreq, hseq, hmax]
    · have hne : (s.sequence == 0x7FFFFFFF) = false := by simpa using hmax
      simp [Session.send, hw, hreq, hseq, hne]
  · rw [hcb]; simp
  · rw [hcb]; simp [getCallback]
  · intro k hk
    rw [hcb]
    have hk2 : (k == nextSequence s.sequence) = false := by simpa using hk
    simp [getCallback, List.lookup, hk2]

/-- Witness of the amended C3: the first `send` on a new session. -/
theorem send_registers_one_entry_witness :
    ((Session.new sampleSocket).send sampleCodec sampleRequest none 9).2.1._callbacks
      = [(1, 9)] :=
  (send_registers_one_entry sampleCodec (Session.new sampleSocket) sampleRequest none 9
    rfl rfl rfl rfl).2.2.1

/-- C9. When the socket is not writable `send` returns `false`, and the session
(counter, correlation table, socket with the buffers written to it) and the PDU
are what they were. -/
theorem send_not_writable (c : Codec) (s : Session) (pdu : PDU) (cb : Option Nat)
    (resolve : Handle) (hw : s.socket.writable = false) :
    s.send c pdu cb resolve = (SendResult.failed, s, pdu) := by
  simp [Session.send, hw]

/-- Witness of C9: a request sent on a socket that is not writable. -/
theorem send_not_writable_witness :
    (Session.new { sampleSocket with writable := false }).send sampleCodec sampleRequest
        none 9
      = (SendResult.failed, Session.new { sampleSocket with writable := false },
          sampleRequest) :=
  send_not_writable sampleCodec (Session.new { sampleSocket with writable := false })
    sampleRequest none 9 rfl

/-- C10, the failing case. With a socket that is not writable the timer callback
of the keepalive does not report a failure: `enquire_link()` returns `false`,
and the call of `.catch` on it throws a `TypeError` out of the callback. The
session itself is unchanged. -/
theorem keepaliveTick_throws (c : Codec) (s : Session) (resolve : Handle)
    (hw : s.socket.writable = false) :
    s.keepaliveTick c resolve
      = (Except.error "TypeError: this.enquire_link(...).catch is not a function", s) := by
  simp [Session.keepaliveTick, Session.shortcut, Session.send, hw]

/-- Witness of the failing case of C10: a session with a keepalive timer
installed whose socket is no longer writable. -/
theorem keepaliveTick_throws_witness :
    ({ Session.new { sampleSocket with writable := false } with _interval := 1 }.keepaliveTick
        sampleCodec 9).1
      = Except.error "TypeError: this.enquire_link(...).catch is not a function" :=
  congrArg Prod.fst (keepaliveTick_throws sampleCodec
    { Session.new { sampleSocket with writable := false } with _interval := 1 } 9 rfl)

/-! ## The extraction loop leaves -/

theorem Socket.read_length (sock sock1 : Socket) (n : Nat) (x : List Nat)
    (h : sock.read n = some (x, sock1)) :
    sock1.readBuffer.length + n = sock.readBuffer.length := by
  unfold Socket.read at h
  split at h
  · cases h
  · simp only [Option.some.injEq, Prod.mk.injEq] at h
    obtain ⟨_, h2⟩ := h
    subst h2
    simp only [List.length_drop]
    omega

theorem dispatch_fields (s : Session) (pdu : PDU) :
    (s.dispatch pdu).1.socket = s.socket ∧ (s.dispatch pdu).1._command_length = none ∧
    (s.dispatch pdu).1.paused = s.paused ∧ (s.dispatch pdu).1._busy = s._busy ∧
    (s.dispatch pdu).1.sequence = s.sequence ∧ (s.dispatch pdu).1._interval = s._interval := by
  cases h1 : pdu.isResponse <;> cases h2 : getCallback s._callbacks pdu.sequence_number <;>
    simp [Session.dispatch, h1, h2]

theorem fromStream_socket (c : Codec) (sock : Socket) (n : Nat) :
    ∃ k, (PDU.fromStream c sock n).2 = { sock with readBuffer := sock.readBuffer.drop k } := by
  unfold PDU.fromStream Socket.read
  by_cases h : n - c.headerSize = 0 ∨ sock.readBuffer.length < n - c.headerSize
  · simp only [h, if_true]
    exact ⟨0, by simp⟩
  · simp only [h, if_false]
    cases c.decode n (List.take (n - c.headerSize) sock.readBuffer) <;> exact ⟨_, rfl⟩

theorem commandLength_socket (c : Codec) (sock : Socket) :
    ∃ k, (PDU.commandLength c sock).2 = { sock with readBuffer := sock.readBuffer.drop k } := by
  unfold PDU.commandLength Socket.read
  by_cases h : c.headerSize = 0 ∨ sock.readBuffer.length < c.headerSize
  · simp only [h, if_true]
    exact ⟨0, by simp⟩
  · simp only [h, if_false]
    cases c.parseLength (List.take c.headerSize sock.readBuffer) <;> exact ⟨_, rfl⟩

theorem tryFromStream_session (c : Codec) (s : Session) :
    (s.tryFromStream c).session
      = { s with socket := (PDU.fromStream c s.socket (s._command_length.getD 0)).2 } := by
  unfold Session.tryFromStream
  generalize PDU.fromStream c s.socket (s._command_length.getD 0) = r
  obtain ⟨r, sock⟩ := r
  cases r with
  | error e => rfl
  | ok o => cases o <;> rfl

theorem tryRead_session (c : Codec) (s : Session) :
    ∃ k cl, (s.tryRead c).session
      = { s with socket := { s.socket with readBuffer := s.socket.readBuffer.drop k },
                 _command_length := cl } := by
  unfold Session.tryRead
  by_cases hf : falsy s._command_length = true
  · simp only [hf, if_true]
    obtain ⟨k, hk⟩ := commandLength_socket c s.socket
    generalize PDU.commandLength c s.socket = r at hk
    obtain ⟨r, sock⟩ := r
    simp only at hk
    subst hk
    cases r with
    | error e => exact ⟨k, s._command_length, rfl⟩
    | ok len =>
      simp only
      by_cases hl : falsy len = true
      · simp only [hl, if_true]
        exact ⟨k, len, rfl⟩
      · simp only [hl, Bool.false_eq_true, if_false]
        rw [tryFromStream_session]
        obtain ⟨j, hj⟩ := fromStream_socket c
          { s.socket with readBuffer := s.socket.readBuffer.drop k } (len.getD 0)
        refine ⟨k + j, len, ?_⟩
        simp only [hj, List.drop_drop]
  · simp only [hf, Bool.false_eq_true, if_false]
    rw [tryFromStream_session]
    obtain ⟨j, hj⟩ := fromStream_socket c s.socket (s._command_length.getD 0)
    exact ⟨j, s._command_length, by rw [hj]⟩

theorem tryRead_decoded_pending (c : Codec) (s s1 : Session) (pdu : PDU)
    (h : s.tryRead c = .decoded s1 pdu) :
    s1.socket.readBuffer.length + (if falsy s._command_length then 1 else 0)
      ≤ s.socket.readBuffer.length := by
  unfold Session.tryRead at h
  by_cases hf : falsy s._command_length = true
  · simp only [hf, if_true] at h ⊢
    unfold PDU.commandLength at h
    cases hr : s.socket.read c.headerSize with
    | none =>
      simp only [hr] at h
      simp [falsy] at h
    | some x =>
      obtain ⟨header, sock1⟩ := x
      have hlen := Socket.read_length _ _ _ _ hr
      simp only [hr] at h
      cases hp : c.parseLength header with
      | error e => simp [hp] at h
      | ok len =>
        simp only [hp] at h
        by_cases hl : falsy (some len) = true
        · simp [hl] at h
        · simp only [hl, Bool.false_eq_true, if_false] at h
          have h2 := tryFromStream_session c
            { s with socket := sock1, _command_length := some len }
          rw [h] at h2
          simp only [TryResult.session] at h2
          obtain ⟨j, hj⟩ := fromStream_socket c sock1 ((some len).getD 0)
          rw [h2]
          simp only [hj, List.length_drop]
          have := c.headerSize_pos
          omega
  · simp only [hf, Bool.false_eq_true, if_false] at h ⊢
    have h2 := tryFromStream_session c s
    rw [h] at h2
    simp only [TryResult.session] at h2
    obtain ⟨j, hj⟩ := fromStream_socket c s.socket (s._command_length.getD 0)
    rw [h2]
    simp only [hj, List.length_drop]
    omega

theorem dispatch_pending (c : Codec) (s s1 : Session) (pdu : PDU)
    (h : s.tryRead c = .decoded s1 pdu) : (s1.dispatch pdu).1.pending < s.pending := by
  have h1 := tryRead_decoded_pending c s s1 pdu h
  obtain ⟨hs, hc, _⟩ := dispatch_fields s1 pdu
  unfold Session.pending
  rw [hs, hc]
  have hnone : falsy (none : Option Nat) = true := rfl
  simp only [hnone, if_true]
  by_cases hf : falsy s._command_length = true
  · simp only [hf, if_true] at h1 ⊢
    omega
  · simp only [hf, Bool.false_eq_true, if_false] at h1 ⊢
    omega

/-- The bound on the number of passes does not matter once it exceeds the
pending work: the loop has left before it is reached. -/
theorem extractLoop_fuel (c : Codec) :
    ∀ (n m : Nat) (s : Session), s.pending < n → s.pending < m →
      Session.extractLoop c n s = Session.extractLoop c m s := by
  intro n
  induction n with
  | zero => intro m s h; omega
  | succ n ih =>
    intro m s hn hm
    cases m with
    | zero => omega
    | succ m =>
      unfold Session.extractLoop
      by_cases hp : s.paused = true
      · simp [hp]
      · simp only [hp, Bool.false_eq_true, if_false]
        cases ht : s.tryRead c with
        | stop s1 => rfl
        | thrown s1 e => rfl
        | decoded s1 pdu =>
          have hd := dispatch_pending c s s1 pdu ht
          simp only
          rw [ih m (s1.dispatch pdu).1 (by omega) (by omega)]

/-- The bound used by `_extractPDUs` is large enough: a larger one gives the same
result. -/
theorem extractLoop_passes (c : Codec) (s : Session) (n : Nat) (h : s.passes ≤ n) :
    Session.extractLoop c n s = Session.extractLoop c s.passes s := by
  apply extractLoop_fuel
  · unfold Session.pending
    unfold Session.passes at h
    split <;> omega
  · unfold Session.pending Session.passes
    split <;> omega

/-! ## Reading complete frames -/

theorem falsy_some_pos (n : Nat) (h : 0 < n) : falsy (some n) = false := by
  cases n with
  | zero => omega
  | succ n => rfl

theorem dispatch_eq (s : Session) (pdu : PDU) :
    s.dispatch pdu
      = ({ s with _command_length := none,
                  _callbacks := frameCallbacks s._callbacks [pdu] },
          frameEffects s._callbacks [pdu]) := by
  cases h1 : pdu.isResponse <;> cases h2 : getCallback s._callbacks pdu.sequence_number <;>
    simp [Session.dispatch, frameCallbacks, frameEffects, h1, h2]

/-- With no length pending and an encoded frame at the head of the buffer, the
`try` block decodes that frame and consumes exactly its octets. -/
theorem tryRead_frame (c : Codec) (s : Session) (pdu : PDU) (tail : List Nat)
    (henc : c.Encodes pdu) (hcl : s._command_length = none)
    (hbuf : s.socket.readBuffer = c.toBuffer pdu ++ tail) :
    s.tryRead c
      = .decoded { s with socket := { s.socket with readBuffer := tail },
                          _command_length := some (c.toBuffer pdu).length } pdu := by
  obtain ⟨hlt, hparse, hdec⟩ := henc
  obtain ⟨sq, paused, busy, cbs, intv, cl, ⟨w, buf, wr, wcb⟩⟩ := s
  simp only at hcl hbuf
  subst hcl hbuf
  have hpos : 0 < (c.toBuffer pdu).length := by omega
  have htake : List.take c.headerSize (c.toBuffer pdu ++ tail)
      = List.take c.headerSize (c.toBuffer pdu) :=
    List.take_append_of_le_length (by omega)
  have hdrop : List.drop c.headerSize (c.toBuffer pdu ++ tail)
      = List.drop c.headerSize (c.toBuffer pdu) ++ tail :=
    List.drop_append_of_le_length (by omega)
  have hlen2 : (List.drop c.headerSize (c.toBuffer pdu)).length
      = (c.toBuffer pdu).length - c.headerSize := by simp
  have h1 : ¬ ((c.toBuffer pdu).length + tail.length < c.headerSize) := by omega
  have h2 : ¬ ((c.toBuffer pdu).length - c.headerSize + tail.length
      < (c.toBuffer pdu).length - c.headerSize) := by omega
  have hfalsy : falsy (none : Option Nat) = true := rfl
  have hh0 : ¬ (c.headerSize = 0) := Nat.pos_iff_ne_zero.mp c.headerSize_pos
  have hb0 : ¬ ((c.toBuffer pdu).length - c.headerSize = 0) := by omega
  simp only [Session.tryRead, hfalsy, if_true, PDU.commandLength, Socket.read,
    List.length_append, h1, hh0, hb0, or_self, if_false, htake, hparse,
    falsy_some_pos _ hpos, Bool.false_eq_true, Session.tryFromStream, PDU.fromStream,
    Option.getD_some, hdrop, hlen2, h2]
  rw [List.take_left' hlen2, List.drop_left' hlen2, hdec]

/-- The loop on a buffer that starts with the encodings of the frames `pdus`:
it produces their effects in order and goes on with what follows them. -/
theorem extractLoop_frames (c : Codec) :
    ∀ (pdus : List PDU) (s : Session) (n : Nat) (tail : List Nat),
      (∀ pdu ∈ pdus, c.Encodes pdu) → s.paused = false → s._command_length = none →
      s.socket.readBuffer = (pdus.map c.toBuffer).flatten ++ tail → s.pending < n →
      Session.extractLoop c n s
        = ((Session.extractLoop c n
              { s with socket := { s.socket with readBuffer := tail },
                       _callbacks := frameCallbacks s._callbacks pdus }).1,
            frameEffects s._callbacks pdus
              ++ (Session.extractLoop c n
                { s with socket := { s.socket with readBuffer := tail },
                         _callbacks := frameCallbacks s._callbacks pdus }).2) := by
  intro pdus
  induction pdus with
  | nil =>
    intro s n tail _ _ _ hbuf _
    obtain ⟨sq, paused, busy, cbs, intv, cl, ⟨w, buf, wr, wcb⟩⟩ := s
    simp only [List.map_nil, List.flatten_nil, List.nil_append] at hbuf
    subst hbuf
    simp [frameCallbacks, frameEffects]
  | cons pdu rest ih =>
    intro s n tail henc hpaused hcl hbuf hn
    have hpdu := henc pdu (List.mem_cons_self _ _)
    have hrest : ∀ q ∈ rest, c.Encodes q := fun q hq => henc q (List.mem_cons_of_mem _ hq)
    have hbuf2 : s.socket.readBuffer
        = c.toBuffer pdu ++ ((rest.map c.toBuffer).flatten ++ tail) := by
      rw [hbuf]; simp
    have htry := tryRead_frame c s pdu _ hpdu hcl hbuf2
    have hpos : 0 < (c.toBuffer pdu).length := by have := hpdu.1; omega
    obtain ⟨sq, paused, busy, cbs, intv, cl, ⟨w, buf, wr, wcb⟩⟩ := s
    simp only at hpaused hcl hbuf2 htry
    subst hpaused hcl hbuf2
    have hfalsy : falsy (none : Option Nat) = true := rfl
    simp only [Session.pending, List.length_append, hfalsy, if_true] at hn
    cases n with
    | zero => omega
    | succ n =>
      rw [Session.extractLoop]
      simp only [Bool.false_eq_true, if_false, htry, dispatch_eq]
      rw [ih _ n tail hrest rfl rfl rfl
        (by simp only [Session.pending, List.length_append, hfalsy, if_true]; omega)]
      have hfuel := extractLoop_fuel c n (n + 1)
        { sequence := sq, paused := false, _busy := busy,
          _callbacks := frameCallbacks (frameCallbacks cbs [pdu]) rest, _interval := intv,
          _command_length := none,
          socket := { writable := w, readBuffer := tail, written := wr,
                      writeCallbacks := wcb } }
        (by simp only [Session.pending, hfalsy, if_true]; omega)
        (by simp only [Session.pending, hfalsy, if_true]; omega)
      have hcbs : frameCallbacks (frameCallbacks cbs [pdu]) rest
          = frameCallbacks cbs (pdu :: rest) := by
        cases h1 : pdu.isResponse <;> cases h2 : getCallback cbs pdu.sequence_number <;>
          simp [frameCallbacks, h1, h2]
      have heff : frameEffects cbs [pdu] ++ frameEffects (frameCallbacks cbs [pdu]) rest
          = frameEffects cbs (pdu :: rest) := by
        cases h1 : pdu.isResponse <;> cases h2 : getCallback cbs pdu.sequence_number <;>
          simp [frameCallbacks, frameEffects, h1, h2]
      rw [hcbs] at hfuel
      simp only [hcbs, hfuel, ← heff, List.append_assoc]

theorem extractLoop_empty (c : Codec) (s : Session) (n : Nat) (hn : 0 < n)
    (hpaused : s.paused = false) (hcl : s._command_length = none)
    (hbuf : s.socket.readBuffer = []) :
    Session.extractLoop c n s = ({ s with _busy := false }, []) := by
  obtain ⟨sq, paused, busy, cbs, intv, cl, ⟨w, buf, wr, wcb⟩⟩ := s
  simp only at hpaused hcl hbuf
  subst hpaused hcl hbuf
  cases n with
  | zero => omega
  | succ n =>
    have hfalsy : falsy (none : Option Nat) = true := rfl
    have hh : (0 : Nat) < c.headerSize := c.headerSize_pos
    rw [Session.extractLoop]
    simp [Session.tryRead, hfalsy, PDU.commandLength, Socket.read, hh]

/-- One call of `_extractPDUs` on an idle, unpaused session whose buffer holds
the encodings of `pdus` and nothing else. -/
theorem extractPDUs_frames (c : Codec) (s : Session) (pdus : List PDU)
    (henc : ∀ pdu ∈ pdus, c.Encodes pdu) (hbusy : s._busy = false)
    (hpaused : s.paused = false) (hcl : s._command_length = none)
    (hbuf : s.socket.readBuffer = (pdus.map c.toBuffer).flatten) :
    s._extractPDUs c
      = ({ s with socket := { s.socket with readBuffer := [] },
                  _callbacks := frameCallbacks s._callbacks pdus },
          frameEffects s._callbacks pdus) := by
  obtain ⟨sq, paused, busy, cbs, intv, cl, ⟨w, buf, wr, wcb⟩⟩ := s
  simp only at hbusy hpaused hcl hbuf
  subst hbusy hpaused hcl hbuf
  have hfalsy : falsy (none : Option Nat) = true := rfl
  simp only [Session._extractPDUs, Bool.false_eq_true, if_false, Session.passes]
  rw [extractLoop_frames c pdus _ _ [] henc rfl rfl (by simp)
    (by simp only [Session.pending, hfalsy, if_true]; omega)]
  simp only
  rw [extractLoop_empty c _ _ (by omega) rfl rfl rfl]
  simp

theorem pduEvents_frameEffects :
    ∀ (pdus : List PDU) (t : List (Nat × Handle)), (∀ pdu ∈ pdus, pdu.command ≠ "pdu") →
      pduEvents (frameEffects t pdus) = pdus := by
  intro pdus
  induction pdus with
  | nil => intro t _; rfl
  | cons pdu rest ih =>
    intro t h
    have hc : (pdu.command == "pdu") = false := by
      simpa using h pdu (List.mem_cons_self _ _)
    have hrest : ∀ q ∈ rest, q.command ≠ "pdu" := fun q hq => h q (List.mem_cons_of_mem _ hq)
    cases h1 : pdu.isResponse <;> cases h2 : getCallback t pdu.sequence_number <;>
      simp [frameEffects, pduEvents, h1, h2, hc, ih _ hrest]

/-! ## Extraction: several frames, pause and resume, correlation -/

/-- C6. When the encodings of the frames `pdus` arrive in one chunk on an idle,
unpaused session with nothing buffered, the single run of `_extractPDUs` started
by the chunk produces, frame after frame in arrival order, the `pdu` event and
the command event of the frame (and the completion of a pending entry when the
frame is a response); it leaves the buffer empty, no length pending and the
re-entrancy guard cleared. Unless a command is itself named `pdu`, the `pdu`
events are exactly the frames, once each, in order. -/
theorem multi_frame_extraction (c : Codec) (s : Session) (pdus : List PDU)
    (henc : ∀ pdu ∈ pdus, c.Encodes pdu) (hbusy : s._busy = false)
    (hpaused : s.paused = false) (hcl : s._command_length = none)
    (hbuf : s.socket.readBuffer = []) :
    (s.readable c (pdus.map c.toBuffer).flatten).2 = frameEffects s._callbacks pdus ∧
    (s.readable c (pdus.map c.toBuffer).flatten).1.socket.readBuffer = [] ∧
    (s.readable c (pdus.map c.toBuffer).flatten).1._command_length = none ∧
    (s.readable c (pdus.map c.toBuffer).flatten).1._busy = false ∧
    ((∀ pdu ∈ pdus, pdu.command ≠ "pdu") →
      pduEvents (s.readable c (pdus.map c.toBuffer).flatten).2 = pdus) := by
  have h := extractPDUs_frames c
    { s with socket := { s.socket with
        readBuffer := s.socket.readBuffer ++ (pdus.map c.toBuffer).flatten } }
    pdus henc hbusy hpaused hcl (by simp [hbuf])
  unfold Session.readable
  rw [h]
  refine ⟨rfl, rfl, hcl, hbusy, fun hc => pduEvents_frameEffects pdus _ hc⟩

/-- Witness of C6: a request and a response arriving in one chunk on a new
session. -/
theorem multi_frame_extraction_witness :
    ((Session.new sampleSocket).readable sampleCodec
        ([sampleRequest, sampleResponse 3].map sampleCodec.toBuffer).flatten).2
      = [Effect.emit "pdu" sampleRequest, Effect.emit "enquire_link" sampleRequest,
          Effect.emit "pdu" (sampleResponse 3),
          Effect.emit "enquire_link_resp" (sampleResponse 3)] :=
  (multi_frame_extraction sampleCodec (Session.new sampleSocket)
    [sampleRequest, sampleResponse 3]
    (by
      intro pdu h
      simp only [List.mem_cons, List.mem_singleton, List.not_mem_nil, or_false] at h
      rcases h with h | h <;> subst h <;> exact ⟨by decide, rfl, rfl⟩)
    rfl rfl rfl rfl).1

/-- C7. On a session on which `pause()` has been called, `_extractPDUs` produces
no effect and leaves the session, its buffer included, as it is. When the
session is idle and its buffer holds the encodings of the frames `pdus`, the
following `resume()` produces the effects of all of them in arrival order, and
does exactly what `_extractPDUs` does on the same session never paused. -/
theorem pause_then_resume (c : Codec) (s : Session) (pdus : List PDU)
    (henc : ∀ pdu ∈ pdus, c.Encodes pdu) (hbusy : s._busy = false)
    (hcl : s._command_length = none)
    (hbuf : s.socket.readBuffer = (pdus.map c.toBuffer).flatten) :
    s.pause._extractPDUs c = (s.pause, []) ∧
    s.pause.resume c = Session._extractPDUs c { s with paused := false } ∧
    (s.pause.resume c).2 = frameEffects s._callbacks pdus ∧
    (s.pause.resume c).1.socket.readBuffer = [] := by
  have h := extractPDUs_frames c { s with paused := false } pdus henc hbusy rfl hcl hbuf
  refine ⟨?_, rfl, ?_, ?_⟩
  · unfold Session._extractPDUs Session.pause Session.passes
    simp only [hbusy, Bool.false_eq_true, if_false]
    rw [Session.extractLoop]
    simp [← hbusy]
  · show (Session._extractPDUs c { s with paused := false }).2 = _
    rw [h]
  · show (Session._extractPDUs c { s with paused := false }).1.socket.readBuffer = _
    rw [h]

/-- Witness of C7: two frames buffered on a paused session are announced, in
order, by `resume()`. -/
theorem pause_then_resume_witness :
    ((Session.pause (Session.new { sampleSocket with readBuffer :=
        ([sampleRequest, sampleResponse 3].map sampleCodec.toBuffer).flatten })).resume
        sampleCodec).2
      = [Effect.emit "pdu" sampleRequest, Effect.emit "enquire_link" sampleRequest,
          Effect.emit "pdu" (sampleResponse 3),
          Effect.emit "enquire_link_resp" (sampleResponse 3)] :=
  (pause_then_resume sampleCodec
    (Session.new { sampleSocket with readBuffer :=
        ([sampleRequest, sampleResponse 3].map sampleCodec.toBuffer).flatten })
    [sampleRequest, sampleResponse 3]
    (by
      intro pdu h
      simp only [List.mem_cons, List.mem_singleton, List.not_mem_nil, or_false] at h
      rcases h with h | h <;> subst h <;> exact ⟨by decide, rfl, rfl⟩)
    rfl rfl rfl).2.2.1

theorem send_fields (c : Codec) (s : Session) (pdu : PDU) (cb : Option Nat)
    (resolve : Handle) :
    (s.send c pdu cb resolve).2.1._busy = s._busy ∧
    (s.send c pdu cb resolve).2.1.paused = s.paused ∧
    (s.send c pdu cb resolve).2.1._command_length = s._command_length ∧
    (s.send c pdu cb resolve).2.1.socket.readBuffer = s.socket.readBuffer ∧
    (s.send c pdu cb resolve).2.1._interval = s._interval := by
  unfold Session.send Socket.write
  cases s.socket.writable <;> cases pdu.isResponse <;>
    by_cases h0 : pdu.sequence_number = 0 <;>
    by_cases hm : s.sequence = 0x7FFFFFFF <;> simp [h0, hm]

theorem send_registers (c : Codec) (s : Session) (pdu : PDU) (cb : Option Nat)
    (resolve : Handle) (hw : s.socket.writable = true) (hreq : pdu.isResponse = false) :
    getCallback (s.send c pdu cb resolve).2.1._callbacks
      (s.send c pdu cb resolve).2.2.sequence_number = some resolve := by
  unfold Session.send Socket.write
  by_cases h0 : pdu.sequence_number = 0 <;>
    by_cases hm : s.sequence = 0x7FFFFFFF <;>
    simp [hw, hreq, h0, hm, setCallback, getCallback]

/-- A response whose sequence number has a pending entry: the handle is called
once, after the two notifications, and the entry is gone. -/
theorem response_completes (c : Codec) (s : Session) (r : PDU) (h : Handle)
    (henc : c.Encodes r) (hresp : r.isResponse = true) (hbusy : s._busy = false)
    (hpaused : s.paused = false) (hcl : s._command_length = none)
    (hbuf : s.socket.readBuffer = [])
    (hentry : getCallback s._callbacks r.sequence_number = some h) :
    s.readable c (c.toBuffer r)
      = ({ s with _callbacks := deleteCallback s._callbacks r.sequence_number },
          [Effect.emit "pdu" r, Effect.emit r.command r, Effect.call h r]) := by
  have h1 := extractPDUs_frames c
    { s with socket := { s.socket with readBuffer := s.socket.readBuffer ++ c.toBuffer r } }
    [r] (by simpa using henc) hbusy hpaused hcl (by simp [hbuf])
  unfold Session.readable
  rw [h1]
  obtain ⟨sq, paused, busy, cbs, intv, cl, ⟨w, buf, wr, wcb⟩⟩ := s
  simp only at hbuf hentry
  subst hbuf
  simp [frameCallbacks, frameEffects, hresp, hentry]

/-- A response whose sequence number has no pending entry: the two
notifications, no call, and the table is what it was. -/
theorem response_unmatched (c : Codec) (s : Session) (r : PDU)
    (henc : c.Encodes r) (hresp : r.isResponse = true) (hbusy : s._busy = false)
    (hpaused : s.paused = false) (hcl : s._command_length = none)
    (hbuf : s.socket.readBuffer = [])
    (hentry : getCallback s._callbacks r.sequence_number = none) :
    s.readable c (c.toBuffer r) = (s, [Effect.emit "pdu" r, Effect.emit r.command r]) := by
  have h1 := extractPDUs_frames c
    { s with socket := { s.socket with readBuffer := s.socket.readBuffer ++ c.toBuffer r } }
    [r] (by simpa using henc) hbusy hpaused hcl (by simp [hbuf])
  unfold Session.readable
  rw [h1]
  obtain ⟨sq, paused, busy, cbs, intv, cl, ⟨w, buf, wr, wcb⟩⟩ := s
  simp only at hbuf hentry
  subst hbuf
  simp [frameCallbacks, frameEffects, hresp, hentry]

/-- C2. After `send` has registered the handle `resolve` of a non-response PDU
under its sequence number `n`, a response `r1` with sequence number `n` that is
decoded by `_extractPDUs` has its two notifications followed by exactly one call,
of `resolve` with `r1`; the entry under `n` is then gone, and a second response
`r2` with the same `n` only has its two notifications: no handle is called. -/
theorem send_then_response (c : Codec) (s : Session) (pdu r1 r2 : PDU) (cb : Option Nat)
    (resolve : Handle) (hw : s.socket.writable = true) (hreq : pdu.isResponse = false)
    (hbusy : s._busy = false) (hpaused : s.paused = false)
    (hcl : s._command_length = none) (hbuf : s.socket.readBuffer = [])
    (henc1 : c.Encodes r1) (henc2 : c.Encodes r2)
    (hresp1 : r1.isResponse = true) (hresp2 : r2.isResponse = true)
    (hn1 : r1.sequence_number = (s.send c pdu cb resolve).2.2.sequence_number)
    (hn2 : r2.sequence_number = (s.send c pdu cb resolve).2.2.sequence_number) :
    ((s.send c pdu cb resolve).2.1.readable c (c.toBuffer r1)).2
      = [Effect.emit "pdu" r1, Effect.emit r1.command r1, Effect.call resolve r1] ∧
    getCallback ((s.send c pdu cb resolve).2.1.readable c (c.toBuffer r1)).1._callbacks
      (s.send c pdu cb resolve).2.2.sequence_number = none ∧
    (((s.send c pdu cb resolve).2.1.readable c (c.toBuffer r1)).1.readable c
        (c.toBuffer r2)).2
      = [Effect.emit "pdu" r2, Effect.emit r2.command r2] := by
  obtain ⟨fb, fp, fc, fr, _⟩ := send_fields c s pdu cb resolve
  have hreg := send_registers c s pdu cb resolve hw hreq
  rw [← hn1] at hreg
  have h1 := response_completes c (s.send c pdu cb resolve).2.1 r1 resolve henc1 hresp1
    (fb.trans hbusy) (fp.trans hpaused) (fc.trans hcl) (fr.trans hbuf) hreg
  rw [h1]
  refine ⟨rfl, ?_, ?_⟩
  · rw [← hn1]
    exact getCallback_delete_self _ _
  · have h2 := response_unmatched c
      { (s.send c pdu cb resolve).2.1 with
        _callbacks := deleteCallback (s.send c pdu cb resolve).2.1._callbacks
          r1.sequence_number }
      r2 henc2 hresp2 (fb.trans hbusy) (fp.trans hpaused) (fc.trans hcl) (fr.trans hbuf)
      (by rw [hn2, ← hn1]; exact getCallback_delete_self _ _)
    simp only [h2]

/-- Witness of C2: the first request of a new session and two responses to
it. -/
theorem send_then_response_witness :
    (((Session.new sampleSocket).send sampleCodec sampleRequest none 9).2.1.readable
        sampleCodec (sampleCodec.toBuffer (sampleResponse 1))).2
      = [Effect.emit "pdu" (sampleResponse 1),
          Effect.emit "enquire_link_resp" (sampleResponse 1),
          Effect.call 9 (sampleResponse 1)] :=
  (send_then_response sampleCodec (Session.new sampleSocket) sampleRequest
    (sampleResponse 1) (sampleResponse 1) none 9 rfl rfl rfl rfl rfl rfl
    ⟨by decide, rfl, rfl⟩ ⟨by decide, rfl, rfl⟩ rfl rfl rfl rfl).1

/-! ## A frame split over several chunks -/

/-- While a frame is incomplete, a chunk is taken in without any effect. -/
theorem readable_partial (c : Codec) (s : Session) (pdu : PDU) (r ch rest : List Nat)
    (henc : c.Encodes pdu) (hbusy : s._busy = false) (hpaused : s.paused = false)
    (hcl : s._command_length = none) (hsplit : r ++ ch ++ rest = c.toBuffer pdu)
    (hrest : rest ≠ []) :
    (s.partialFrame c (c.toBuffer pdu).length r).readable c ch
      = (s.partialFrame c (c.toBuffer pdu).length (r ++ ch), []) := by
  obtain ⟨hlt, hparse, hdec⟩ := henc
  obtain ⟨sq, paused, busy, cbs, intv, cl, ⟨w, buf, wr, wcb⟩⟩ := s
  simp only at hbusy hpaused hcl
  subst hbusy hpaused hcl
  have hrl : 0 < rest.length := List.length_pos.mpr hrest
  have hlen : r.length + ch.length + rest.length = (c.toBuffer pdu).length := by
    rw [← hsplit]; simp only [List.length_append]
  have hpos : 0 < (c.toBuffer pdu).length := by omega
  have hfalsy : falsy (none : Option Nat) = true := rfl
  by_cases h1 : r.length < c.headerSize
  · by_cases h2 : r.length + ch.length < c.headerSize
    · simp [Session.partialFrame, h1, h2, Session.readable, Session._extractPDUs,
        Session.passes, Session.extractLoop, Session.tryRead, hfalsy, PDU.commandLength,
        Socket.read]
    · have htake : List.take c.headerSize (r ++ ch)
          = List.take c.headerSize (c.toBuffer pdu) := by
        rw [← hsplit]
        exact (List.take_append_of_le_length (by simp; omega)).symm
      have h3 : r.length + ch.length - c.headerSize
          < (c.toBuffer pdu).length - c.headerSize := by omega
      have hh0 : ¬ (c.headerSize = 0) := Nat.pos_iff_ne_zero.mp c.headerSize_pos
      simp only [Session.partialFrame, h1, if_true, List.length_append, h2, hh0, or_self,
        if_false, Session.readable, Session._extractPDUs, Bool.false_eq_true,
        Session.passes, Session.extractLoop, Session.tryRead, hfalsy, PDU.commandLength,
        Socket.read, htake, hparse, falsy_some_pos _ hpos, Session.tryFromStream,
        PDU.fromStream, Option.getD_some, List.length_drop, h3, or_true]
  · have h2 : ¬ (r.length + ch.length < c.headerSize) := by omega
    have hdrop : List.drop c.headerSize (r ++ ch) = List.drop c.headerSize r ++ ch :=
      List.drop_append_of_le_length (by omega)
    have h3 : r.length - c.headerSize + ch.length
        < (c.toBuffer pdu).length - c.headerSize := by omega
    simp only [Session.partialFrame, h1, if_false, List.length_append, h2,
      Session.readable, Session._extractPDUs, Bool.false_eq_true, Session.passes,
      Session.extractLoop, Session.tryRead, falsy_some_pos _ hpos,
      Session.tryFromStream, PDU.fromStream, Socket.read,
      Option.getD_some, List.length_drop, h3, or_true, if_true, hdrop]

/-- The chunk that completes the frame: the frame is decoded and dispatched, and
nothing is left in the buffer. -/
theorem readable_final (c : Codec) (s : Session) (pdu : PDU) (r ch : List Nat)
    (henc : c.Encodes pdu) (hbusy : s._busy = false) (hpaused : s.paused = false)
    (hcl : s._command_length = none) (hsplit : r ++ ch = c.toBuffer pdu) :
    (s.partialFrame c (c.toBuffer pdu).length r).readable c ch
      = ({ s with socket := { s.socket with readBuffer := [] },
                  _callbacks := frameCallbacks s._callbacks [pdu] },
          frameEffects s._callbacks [pdu]) := by
  by_cases h1 : r.length < c.headerSize
  · have h := extractPDUs_frames c
      { s with socket := { s.socket with readBuffer := r ++ ch } } [pdu]
      (by simpa using henc) hbusy hpaused hcl (by simp [hsplit])
    simp only [Session.partialFrame, h1, if_true, Session.readable]
    exact h
  · obtain ⟨hlt, hparse, hdec⟩ := henc
    obtain ⟨sq, paused, busy, cbs, intv, cl, ⟨w, buf, wr, wcb⟩⟩ := s
    simp only at hbusy hpaused hcl
    subst hbusy hpaused hcl
    have hlen : r.length + ch.length = (c.toBuffer pdu).length := by
      rw [← hsplit]; simp only [List.length_append]
    have hpos : 0 < (c.toBuffer pdu).length := by omega
    have hdrop : List.drop c.headerSize r ++ ch = List.drop c.headerSize (c.toBuffer pdu) := by
      rw [← hsplit]
      exact (List.drop_append_of_le_length (by omega)).symm
    have hlen2 : (List.drop c.headerSize (c.toBuffer pdu)).length
        = (c.toBuffer pdu).length - c.headerSize := by simp
    have htry : Session.tryRead c
        { sequence := sq, paused := false, _busy := true, _callbacks := cbs, _interval := intv,
          _command_length := some (c.toBuffer pdu).length,
          socket := { writable := w, readBuffer := List.drop c.headerSize (c.toBuffer pdu),
                      written := wr, writeCallbacks := wcb } }
        = .decoded
          { sequence := sq, paused := false, _busy := true, _callbacks := cbs, _interval := intv,
            _command_length := some (c.toBuffer pdu).length,
            socket := { writable := w, readBuffer := [], written := wr,
                        writeCallbacks := wcb } } pdu := by
      have ht : List.take ((c.toBuffer pdu).length - c.headerSize)
          (List.drop c.headerSize (c.toBuffer pdu)) = List.drop c.headerSize (c.toBuffer pdu) :=
        List.take_of_length_le (by rw [hlen2])
      have hd : List.drop ((c.toBuffer pdu).length - c.headerSize)
          (List.drop c.headerSize (c.toBuffer pdu)) = [] :=
        List.drop_of_length_le (by rw [hlen2])
      have hb0 : ¬ ((c.toBuffer pdu).length - c.headerSize = 0) := by omega
      simp only [Session.tryRead, falsy_some_pos _ hpos, Bool.false_eq_true, if_false,
        Session.tryFromStream, PDU.fromStream, Socket.read, Option.getD_some, hlen2,
        Nat.lt_irrefl, hb0, or_self, ht, hd, hdec]
    simp only [Session.partialFrame, h1, if_false, Session.readable, hdrop,
      Session._extractPDUs, Bool.false_eq_true, Session.passes]
    rw [Session.extractLoop]
    simp only [Bool.false_eq_true, if_false, htry, dispatch_eq]
    rw [extractLoop_empty c _ _ (by omega) rfl rfl rfl]
    simp

/-- Chunks delivered after the part `r` of a frame, the last of them completing
the frame: nothing happens before the last chunk, which has the effects of the
frame. -/
theorem deliver_split (c : Codec) (s : Session) (pdu : PDU)
    (henc : c.Encodes pdu) (hbusy : s._busy = false) (hpaused : s.paused = false)
    (hcl : s._command_length = none) :
    ∀ (chunks : List (List Nat)) (r : List Nat), chunks ≠ [] →
      (∀ ch ∈ chunks, ch ≠ []) → r ++ chunks.flatten = c.toBuffer pdu →
      (s.partialFrame c (c.toBuffer pdu).length r).deliver c chunks
        = ({ s with socket := { s.socket with readBuffer := [] },
                    _callbacks := frameCallbacks s._callbacks [pdu] },
            List.replicate (chunks.length - 1) [] ++ [frameEffects s._callbacks [pdu]]) := by
  intro chunks
  induction chunks with
  | nil => intro r h; exact absurd rfl h
  | cons ch rest ih =>
    intro r _ hne hsplit
    cases rest with
    | nil =>
      simp only [List.flatten_cons, List.flatten_nil, List.append_nil] at hsplit
      simp only [Session.deliver, readable_final c s pdu r ch henc hbusy hpaused hcl hsplit]
      rfl
    | cons ch2 rest2 =>
      have hch2 : ch2 ≠ [] := hne ch2 (by simp)
      have hrest : (ch2 :: rest2).flatten ≠ [] := by
        simp only [List.flatten_cons, ne_eq, List.append_eq_nil, not_and]
        intro h
        exact absurd h hch2
      have hsplit2 : r ++ ch ++ (ch2 :: rest2).flatten = c.toBuffer pdu := by
        rw [← hsplit]; simp
      have hstep := readable_partial c s pdu r ch _ henc hbusy hpaused hcl hsplit2 hrest
      have hih := ih (r ++ ch) (by simp) (fun x hx => hne x (List.mem_cons_of_mem _ hx))
        hsplit2
      rw [Session.deliver]
      simp only [hstep, hih]
      simp [List.replicate_succ]

/-- C5. An encoded frame arrives on an idle, unpaused session with nothing
buffered, split at arbitrary places into two or more non-empty chunks, and
`_extractPDUs` runs after each chunk. Every chunk but the last has no effect at
all; the last one has exactly the effects that the unsplit frame has (its `pdu`
event, its command event and the completion of a pending entry); and the session
ends in the state the unsplit frame leaves, with an empty buffer and no length
pending: no octet is read twice or lost. Unless the command is itself named
`pdu`, the whole delivery has exactly one `pdu` event, carrying the frame. -/
theorem split_frame_extraction (c : Codec) (s : Session) (pdu : PDU)
    (chunks : List (List Nat)) (henc : c.Encodes pdu) (hbusy : s._busy = false)
    (hpaused : s.paused = false) (hcl : s._command_length = none)
    (hbuf : s.socket.readBuffer = []) (hmany : 2 ≤ chunks.length)
    (hne : ∀ ch ∈ chunks, ch ≠ []) (hsplit : chunks.flatten = c.toBuffer pdu) :
    (s.deliver c chunks).2
      = List.replicate (chunks.length - 1) [] ++ [frameEffects s._callbacks [pdu]] ∧
    (s.readable c (c.toBuffer pdu)).2 = frameEffects s._callbacks [pdu] ∧
    (s.deliver c chunks).1 = (s.readable c (c.toBuffer pdu)).1 ∧
    (s.deliver c chunks).1.socket.readBuffer = [] ∧
    (s.deliver c chunks).1._command_length = none ∧
    (pdu.command ≠ "pdu" → pduEvents (s.deliver c chunks).2.flatten = [pdu]) := by
  have hs : s.partialFrame c (c.toBuffer pdu).length [] = s := by
    obtain ⟨sq, paused, busy, cbs, intv, cl, ⟨w, buf, wr, wcb⟩⟩ := s
    simp only at hbuf
    subst hbuf
    simp [Session.partialFrame, c.headerSize_pos]
  have hchunks : chunks ≠ [] := by
    intro h
    rw [h] at hmany
    simp at hmany
  have h1 := deliver_split c s pdu henc hbusy hpaused hcl chunks [] hchunks hne
    (by simpa using hsplit)
  have h2 := readable_final c s pdu [] (c.toBuffer pdu) henc hbusy hpaused hcl rfl
  rw [hs] at h1 h2
  rw [h1, h2]
  refine ⟨rfl, rfl, rfl, rfl, hcl, fun hc => ?_⟩
  have hflat : ∀ n : Nat, (List.replicate n ([] : List Effect)).flatten = [] := by
    intro n
    induction n with
    | zero => rfl
    | succ n ih => simp [List.replicate_succ, ih]
  simp only [List.flatten_append, hflat, List.nil_append, List.flatten_cons, List.flatten_nil,
    List.append_nil]
  exact pduEvents_frameEffects [pdu] _ (by simpa using hc)

/-- Witness of C5: a response of sixteen octets arriving as two, seven and seven
octets. -/
theorem split_frame_extraction_witness :
    ((Session.new sampleSocket).deliver sampleCodec
        [[0, 0], [0, 16, 128, 0, 0, 21, 0], [0, 0, 0, 0, 0, 0, 3]]).2
      = [[], [], [Effect.emit "pdu" (sampleResponse 3),
          Effect.emit "enquire_link_resp" (sampleResponse 3)]] :=
  (split_frame_extraction sampleCodec (Session.new sampleSocket) (sampleResponse 3)
    [[0, 0], [0, 16, 128, 0, 0, 21, 0], [0, 0, 0, 0, 0, 0, 3]] ⟨by decide, rfl, rfl⟩
    rfl rfl rfl rfl (by decide)
    (by decide) rfl).1

/-! ## Handles that are never called -/

theorem mem_of_getCallback (t : List (Nat × Handle)) (n : Nat) (v : Handle)
    (h : getCallback t n = some v) : (n, v) ∈ t := by
  induction t with
  | nil => simp [getCallback] at h
  | cons e t ih =>
    obtain ⟨k, w⟩ := e
    unfold getCallback at h ih
    by_cases hk : n = k
    · subst hk
      simp only [List.lookup, beq_self_eq_true, Option.some.injEq] at h
      subst h
      exact List.mem_cons_self _ _
    · have hk2 : (n == k) = false := by simpa using hk
      simp only [List.lookup, hk2] at h
      exact List.mem_cons_of_mem _ (ih h)

theorem lacks_delete (t : List (Nat × Handle)) (n : Nat) (h : Handle) (ht : lacks t h) :
    lacks (deleteCallback t n) h := by
  intro e he
  unfold deleteCallback at he
  exact ht e (List.mem_filter.mp he).1

theorem calls_append (h : Handle) (a b : List Effect) :
    calls h (a ++ b) = (calls h a || calls h b) := by
  unfold calls
  exact List.any_append

theorem dispatch_lacks (s : Session) (pdu : PDU) (h : Handle) (ht : lacks s._callbacks h) :
    lacks (s.dispatch pdu).1._callbacks h ∧ calls h (s.dispatch pdu).2 = false := by
  cases h1 : pdu.isResponse
  · simp [Session.dispatch, h1, calls, ht]
  · cases h2 : getCallback s._callbacks pdu.sequence_number with
    | none => simp [Session.dispatch, h1, h2, calls, ht]
    | some v =>
      have hv : v ≠ h := ht _ (mem_of_getCallback _ _ _ h2)
      simp [Session.dispatch, h1, h2, calls, hv, lacks_delete _ _ _ ht]

theorem tryRead_callbacks (c : Codec) (s : Session) :
    (s.tryRead c).session._callbacks = s._callbacks ∧
    (s.tryRead c).session._busy = s._busy := by
  obtain ⟨k, cl, h⟩ := tryRead_session c s
  rw [h]
  exact ⟨rfl, rfl⟩

theorem extractLoop_lacks (c : Codec) (h : Handle) :
    ∀ (n : Nat) (s : Session), lacks s._callbacks h →
      lacks (Session.extractLoop c n s).1._callbacks h ∧
      calls h (Session.extractLoop c n s).2 = false := by
  intro n
  induction n with
  | zero => intro s ht; exact ⟨ht, rfl⟩
  | succ n ih =>
    intro s ht
    rw [Session.extractLoop]
    by_cases hp : s.paused = true
    · simp only [hp, if_true]
      exact ⟨ht, rfl⟩
    · simp only [hp, Bool.false_eq_true, if_false]
      have hcb := (tryRead_callbacks c s).1
      cases htry : s.tryRead c with
      | stop s1 =>
        rw [htry] at hcb
        simp only [TryResult.session] at hcb
        simp only
        exact ⟨by rw [hcb]; exact ht, rfl⟩
      | thrown s1 e =>
        rw [htry] at hcb
        simp only [TryResult.session] at hcb
        simp only
        exact ⟨by rw [hcb]; exact ht, rfl⟩
      | decoded s1 pdu =>
        rw [htry] at hcb
        simp only [TryResult.session] at hcb
        have hd := dispatch_lacks s1 pdu h (by rw [hcb]; exact ht)
        have hrec := ih (s1.dispatch pdu).1 hd.1
        simp only [calls_append, hd.2, hrec.2, Bool.or_self]
        exact ⟨hrec.1, trivial⟩

theorem extractPDUs_lacks (c : Codec) (h : Handle) (s : Session)
    (ht : lacks s._callbacks h) :
    lacks (s._extractPDUs c).1._callbacks h ∧ calls h (s._extractPDUs c).2 = false := by
  unfold Session._extractPDUs
  by_cases hb : s._busy = true
  · simp only [hb, if_true]
    exact ⟨ht, rfl⟩
  · simp only [hb, Bool.false_eq_true, if_false]
    exact extractLoop_lacks c h _ _ ht

theorem send_lacks (c : Codec) (s : Session) (pdu : PDU) (cb : Option Nat)
    (resolve h : Handle) (hne : resolve ≠ h) (ht : lacks s._callbacks h) :
    lacks (s.send c pdu cb resolve).2.1._callbacks h := by
  have hset : ∀ n, lacks (setCallback s._callbacks n resolve) h := by
    intro n e he
    unfold setCallback at he
    rcases List.mem_cons.mp he with he | he
    · subst he
      exact hne
    · exact lacks_delete _ _ _ ht e he
  unfold Session.send Socket.write
  cases s.socket.writable <;> cases pdu.isResponse <;>
    by_cases h0 : pdu.sequence_number = 0 <;>
    by_cases hm : s.sequence = 0x7FFFFFFF <;> simp [h0, hm, ht, hset]

theorem step_lacks (c : Codec) (h : Handle) (s : Session) (op : Op)
    (hop : op.handle ≠ some h) (ht : lacks s._callbacks h) :
    lacks (s.step c op).1._callbacks h ∧ calls h (s.step c op).2 = false := by
  cases op with
  | readable chunk => exact extractPDUs_lacks c h _ ht
  | send pdu cb resolve =>
    have hne : resolve ≠ h := fun he => hop (by rw [Op.handle, he])
    exact ⟨send_lacks c s pdu cb resolve h hne ht, rfl⟩
  | writeDone =>
    simp only [Session.step, Session.writeDone]
    cases hq : s.socket.writeCallbacks with
    | nil => exact ⟨ht, rfl⟩
    | cons e rest =>
      obtain ⟨pdu, cb⟩ := e
      cases cb <;> exact ⟨ht, rfl⟩
  | pause => exact ⟨ht, rfl⟩
  | resume => exact extractPDUs_lacks c h _ ht
  | connect =>
    refine ⟨?_, rfl⟩
    intro e he
    simp [Session.step, Session.connect] at he

theorem run_lacks (c : Codec) (h : Handle) :
    ∀ (ops : List Op) (s : Session), (∀ op ∈ ops, op.handle ≠ some h) →
      lacks s._callbacks h → calls h (s.run c ops).2 = false := by
  intro ops
  induction ops with
  | nil => intro s _ _; rfl
  | cons op ops ih =>
    intro s hops ht
    have hstep := step_lacks c h s op (hops op (List.mem_cons_self _ _)) ht
    have hrest := ih (s.step c op).1 (fun o ho => hops o (List.mem_cons_of_mem _ ho)) hstep.1
    rw [Session.run]
    simp only [calls_append, hstep.2, hrest, Bool.or_self]

/-- C4 fails as stated: `send` of a response returns a promise, and when the
write callback has run (the `send` event is emitted, no write callback is left)
the `resolve` function of that promise has not been called. -/
theorem send_response_counterexample :
    ((Session.new sampleSocket).send sampleCodec (sampleResponse 5) none 9).1
      = SendResult.promise 9 ∧
    ((Session.new sampleSocket).send sampleCodec (sampleResponse 5) none 9).2.1.writeDone.2
      = [Effect.emit "send" (sampleResponse 5)] ∧
    ((Session.new sampleSocket).send sampleCodec
      (sampleResponse 5) none 9).2.1.writeDone.1.socket.writeCallbacks = [] ∧
    calls 9 ((Session.new sampleSocket).send sampleCodec
      (sampleResponse 5) none 9).2.1.writeDone.2 = false := by
  decide

/-- C4, amended. `send` of a response PDU on a writable socket returns a promise
and only writes the encoded PDU: counter, correlation table and PDU are
unchanged, so no sequence number is allocated and no entry registered. The
session never settles that promise: provided its `resolve` function is not
already in the table and is not handed to the session again, no later event or
call (arrival of octets, completion of a write, `send`, `pause`, `resume`,
`connect`) calls it. -/
theorem send_response_never_settles (c : Codec) (s : Session) (pdu : PDU)
    (cb : Option Nat) (resolve : Handle) (hw : s.socket.writable = true)
    (hresp : pdu.isResponse = true) :
    s.send c pdu cb resolve
      = (SendResult.promise resolve,
          { s with socket := s.socket.write (c.toBuffer pdu) (pdu, cb) }, pdu) ∧
    ∀ ops : List Op, lacks s._callbacks resolve → (∀ op ∈ ops, op.handle ≠ some resolve) →
      calls resolve ((s.send c pdu cb resolve).2.1.run c ops).2 = false := by
  have hsend : s.send c pdu cb resolve
      = (SendResult.promise resolve,
          { s with socket := s.socket.write (c.toBuffer pdu) (pdu, cb) }, pdu) := by
    simp [Session.send, hw, hresp]
  refine ⟨hsend, fun ops ht hops => ?_⟩
  rw [hsend]
  exact run_lacks c resolve ops _ hops ht

/-- Witness of the amended C4: a response sent on a new session. -/
theorem send_response_never_settles_witness :
    (Session.new sampleSocket).send sampleCodec (sampleResponse 5) none 9
      = (SendResult.promise 9,
          { Session.new sampleSocket with
            socket := sampleSocket.write (sampleCodec.toBuffer (sampleResponse 5))
              (sampleResponse 5, none) },
          sampleResponse 5) :=
  (send_response_never_settles sampleCodec (Session.new sampleSocket) (sampleResponse 5)
    none 9 rfl rfl).1

/-! ## Decode failure -/

theorem errorCount_append (a b : List Effect) :
    errorCount (a ++ b) = errorCount a + errorCount b := by
  induction a with
  | nil => simp [errorCount]
  | cons e a ih => cases e <;> simp [errorCount, ih]; omega

theorem dispatch_errorCount (s : Session) (pdu : PDU) : errorCount (s.dispatch pdu).2 = 0 := by
  cases h1 : pdu.isResponse <;> cases h2 : getCallback s._callbacks pdu.sequence_number <;>
    simp [Session.dispatch, h1, h2, errorCount]

/-- A run of the loop emits at most one `error` event, and when it does it returns
without clearing the re-entrancy guard. -/
theorem extractLoop_error (c : Codec) :
    ∀ (n : Nat) (s : Session),
      errorCount (Session.extractLoop c n s).2 ≤ 1 ∧
      (errorCount (Session.extractLoop c n s).2 ≠ 0 →
        (Session.extractLoop c n s).1._busy = s._busy) := by
  intro n
  induction n with
  | zero => intro s; simp [Session.extractLoop, errorCount]
  | succ n ih =>
    intro s
    rw [Session.extractLoop]
    by_cases hp : s.paused = true
    · simp [hp, errorCount]
    · simp only [hp, Bool.false_eq_true, if_false]
      have hb := (tryRead_callbacks c s).2
      cases htry : s.tryRead c with
      | stop s1 => simp [errorCount]
      | thrown s1 e =>
        rw [htry] at hb
        simp only [TryResult.session] at hb
        simp [errorCount, hb]
      | decoded s1 pdu =>
        rw [htry] at hb
        simp only [TryResult.session] at hb
        have hd := dispatch_errorCount s1 pdu
        have hf := (dispatch_fields s1 pdu).2.2.2.1
        have hrec := ih (s1.dispatch pdu).1
        simp only [errorCount_append, hd, Nat.zero_add]
        refine ⟨hrec.1, fun h => ?_⟩
        rw [hrec.2 h, hf, hb]

theorem extractPDUs_busy (c : Codec) (s : Session) (hb : s._busy = true) :
    s._extractPDUs c = (s, []) := by
  simp [Session._extractPDUs, hb]

theorem readable_busy (c : Codec) (s : Session) (chunk : List Nat) (hb : s._busy = true) :
    s.readable c chunk
      = ({ s with socket := { s.socket with readBuffer := s.socket.readBuffer ++ chunk } },
          []) :=
  extractPDUs_busy c _ hb

theorem resume_busy (c : Codec) (s : Session) (hb : s._busy = true) :
    s.resume c = ({ s with paused := false }, []) :=
  extractPDUs_busy c _ hb

/-- While the guard is set, no event or call other than `connect` clears it, and
arrival of octets, `pause` and `resume` have no effect on the outside. -/
theorem step_busy (c : Codec) (s : Session) (op : Op) (hop : op ≠ Op.connect)
    (hb : s._busy = true) :
    (s.step c op).1._busy = true ∧ (op.isSignal = true → (s.step c op).2 = []) := by
  cases op with
  | readable chunk =>
    simp only [Session.step, readable_busy c s chunk hb]
    exact ⟨hb, fun _ => trivial⟩
  | send pdu cb resolve =>
    exact ⟨(send_fields c s pdu cb resolve).1.trans hb, fun _ => rfl⟩
  | writeDone =>
    simp only [Session.step, Session.writeDone]
    cases hq : s.socket.writeCallbacks with
    | nil => exact ⟨hb, fun h => rfl⟩
    | cons e rest =>
      obtain ⟨pdu, cb⟩ := e
      exact ⟨hb, fun h => by simp [Op.isSignal] at h⟩
  | pause => exact ⟨hb, fun _ => rfl⟩
  | resume =>
    simp only [Session.step, resume_busy c s hb]
    exact ⟨hb, fun _ => trivial⟩
  | connect => exact absurd rfl hop

theorem run_busy (c : Codec) :
    ∀ (ops : List Op) (s : Session), (∀ op ∈ ops, op ≠ Op.connect) → s._busy = true →
      (s.run c ops).1._busy = true ∧
      ((∀ op ∈ ops, op.isSignal = true) → (s.run c ops).2 = []) := by
  intro ops
  induction ops with
  | nil => intro s _ hb; exact ⟨hb, fun _ => rfl⟩
  | cons op ops ih =>
    intro s hops hb
    have hstep := step_busy c s op (hops op (List.mem_cons_self _ _)) hb
    have hrest := ih (s.step c op).1 (fun o ho => hops o (List.mem_cons_of_mem _ ho)) hstep.1
    rw [Session.run]
    refine ⟨hrest.1, fun hsig => ?_⟩
    simp only [hstep.2 (hsig op (List.mem_cons_self _ _)),
      hrest.2 (fun o ho => hsig o (List.mem_cons_of_mem _ ho)), List.append_nil]

/-- C8 fails as stated: after the decode failure (a header announcing a length
above the maximum), `connect()` clears the guard, and the frame that arrives next
is announced. -/
theorem decode_failure_counterexample :
    ((Session.new sampleSocket).readable sampleCodec [0, 1, 0, 0]).2
      = [Effect.emitError "PDU length was too large"] ∧
    (((Session.new sampleSocket).readable sampleCodec [0, 1, 0, 0]).1.run sampleCodec
        [Op.connect, Op.readable (sampleCodec.toBuffer (sampleResponse 3))]).2
      = [Effect.emit "pdu" (sampleResponse 3),
          Effect.emit "enquire_link_resp" (sampleResponse 3)] := by
  decide

/-- C8, amended. When `PDU.commandLength` or `PDU.fromStream` throws during
`_extractPDUs`, exactly one `error` event is emitted by that run. Afterwards, as
long as `connect()` is not called, the guard stays set whatever else happens
(octets arriving, writes completing, `send`, `pause`, `resume`): every later
arrival of octets and every later `resume()` produces nothing, neither a `pdu` or
command event nor a completion, and leaves the correlation table alone. -/
theorem decode_failure_permanent (c : Codec) (s : Session)
    (hfail : errorCount (s._extractPDUs c).2 ≠ 0) :
    errorCount (s._extractPDUs c).2 = 1 ∧
    ∀ ops : List Op, (∀ op ∈ ops, op ≠ Op.connect) →
      ((∀ op ∈ ops, op.isSignal = true) → ((s._extractPDUs c).1.run c ops).2 = []) ∧
      ∀ chunk : List Nat,
        (((s._extractPDUs c).1.run c ops).1.readable c chunk).2 = [] ∧
        (((s._extractPDUs c).1.run c ops).1.readable c chunk).1._callbacks
          = ((s._extractPDUs c).1.run c ops).1._callbacks ∧
        (((s._extractPDUs c).1.run c ops).1.resume c).2 = [] ∧
        (((s._extractPDUs c).1.run c ops).1.resume c).1._callbacks
          = ((s._extractPDUs c).1.run c ops).1._callbacks := by
  have hbusy : (s._extractPDUs c).1._busy = true ∧ errorCount (s._extractPDUs c).2 = 1 := by
    unfold Session._extractPDUs at hfail ⊢
    by_cases hb : s._busy = true
    · simp [hb, errorCount] at hfail
    · simp only [hb, Bool.false_eq_true, if_false] at hfail ⊢
      have h := extractLoop_error c s.passes { s with _busy := true }
      exact ⟨h.2 hfail, by omega⟩
  refine ⟨hbusy.2, fun ops hops => ?_⟩
  have hrun := run_busy c ops _ hops hbusy.1
  refine ⟨hrun.2, fun chunk => ?_⟩
  rw [readable_busy c _ chunk hrun.1, resume_busy c _ hrun.1]
  exact ⟨rfl, rfl, rfl, rfl⟩

/-- Witness of the amended C8: a header announcing 65536 octets, then a complete
frame that is never announced. -/
theorem decode_failure_permanent_witness :
    ((Session._extractPDUs sampleCodec
        (Session.new { sampleSocket with readBuffer := [0, 1, 0, 0] })).1.run sampleCodec
        [Op.readable (sampleCodec.toBuffer (sampleResponse 3)), Op.resume]).2 = [] :=
  ((decode_failure_permanent sampleCodec
    (Session.new { sampleSocket with readBuffer := [0, 1, 0, 0] }) (by decide)).2
    [Op.readable (sampleCodec.toBuffer (sampleResponse 3)), Op.resume]
    (by decide)).1 (by decide)

/-! ## Sequence numbers set by the caller, unmatched responses -/

/-- C11. `send` of a non-response PDU whose sequence number is already set to a
non-zero `n`, on a writable socket, leaves the PDU as it is (its sequence number
is still `n`), leaves the session counter unchanged, and registers the
completion handle in the correlation table under `n`. -/
theorem send_preset_sequence (c : Codec) (s : Session) (pdu : PDU) (cb : Option Nat)
    (resolve : Handle) (hw : s.socket.writable = true) (hreq : pdu.isResponse = false)
    (hn : pdu.sequence_number ≠ 0) :
    (s.send c pdu cb resolve).1 = SendResult.promise resolve ∧
    (s.send c pdu cb resolve).2.2 = pdu ∧
    (s.send c pdu cb resolve).2.1.sequence = s.sequence ∧
    (s.send c pdu cb resolve).2.1._callbacks
      = setCallback s._callbacks pdu.sequence_number resolve ∧
    getCallback (s.send c pdu cb resolve).2.1._callbacks pdu.sequence_number
      = some resolve := by
  simp [Session.send, hw, hreq, hn, Socket.write, setCallback, getCallback]

/-- Witness of C11: a request relayed with sequence number 77 on a session whose
counter is 5. -/
theorem send_preset_sequence_witness :
    ({ Session.new sampleSocket with sequence := 5 }.send sampleCodec
        { sampleRequest with sequence_number := 77 } none 9).2.1.sequence = 5 ∧
    getCallback ({ Session.new sampleSocket with sequence := 5 }.send sampleCodec
        { sampleRequest with sequence_number := 77 } none 9).2.1._callbacks 77 = some 9 :=
  ⟨(send_preset_sequence sampleCodec { Session.new sampleSocket with sequence := 5 }
      { sampleRequest with sequence_number := 77 } none 9 rfl rfl (by decide)).2.2.1,
    (send_preset_sequence sampleCodec { Session.new sampleSocket with sequence := 5 }
      { sampleRequest with sequence_number := 77 } none 9 rfl rfl (by decide)).2.2.2.2⟩

theorem errorCount_frameEffects :
    ∀ (pdus : List PDU) (t : List (Nat × Handle)), errorCount (frameEffects t pdus) = 0 := by
  intro pdus
  induction pdus with
  | nil => intro t; rfl
  | cons pdu rest ih =>
    intro t
    cases h1 : pdu.isResponse <;> cases h2 : getCallback t pdu.sequence_number <;>
      simp [frameEffects, errorCount, h1, h2, ih]

/-- C12. A decoded response whose sequence number has no entry in the
correlation table only has its two notifications: the statements after the `try`
block emit no `error`, call no handle and leave the table as it is. On an idle
session the loop then goes on with the frames that follow in the buffer, which
are dispatched against the unchanged table. -/
theorem unmatched_response_harmless (c : Codec) (s : Session) (r : PDU) (rest : List PDU)
    (hresp : r.isResponse = true)
    (hentry : getCallback s._callbacks r.sequence_number = none)
    (henc : c.Encodes r) (hrest : ∀ pdu ∈ rest, c.Encodes pdu) (hbusy : s._busy = false)
    (hpaused : s.paused = false) (hcl : s._command_length = none)
    (hbuf : s.socket.readBuffer = []) :
    s.dispatch r
      = ({ s with _command_length := none },
          [Effect.emit "pdu" r, Effect.emit r.command r]) ∧
    (s.readable c (((r :: rest).map c.toBuffer).flatten)).2
      = [Effect.emit "pdu" r, Effect.emit r.command r] ++ frameEffects s._callbacks rest ∧
    errorCount (s.readable c (((r :: rest).map c.toBuffer).flatten)).2 = 0 ∧
    (s.readable c (((r :: rest).map c.toBuffer).flatten)).1._callbacks
      = frameCallbacks s._callbacks rest ∧
    (s.readable c (c.toBuffer r)).1._callbacks = s._callbacks := by
  have hall : ∀ pdu ∈ r :: rest, c.Encodes pdu := by
    intro pdu h
    rcases List.mem_cons.mp h with h | h
    · rw [h]; exact henc
    · exact hrest pdu h
  have h1 := extractPDUs_frames c
    { s with socket := { s.socket with
        readBuffer := s.socket.readBuffer ++ ((r :: rest).map c.toBuffer).flatten } }
    (r :: rest) hall hbusy hpaused hcl (by simp [hbuf])
  have h2 := response_unmatched c s r henc hresp hbusy hpaused hcl hbuf hentry
  have heff : frameEffects s._callbacks (r :: rest)
      = [Effect.emit "pdu" r, Effect.emit r.command r] ++ frameEffects s._callbacks rest := by
    simp [frameEffects, hresp, hentry]
  have hcbs : frameCallbacks s._callbacks (r :: rest) = frameCallbacks s._callbacks rest := by
    simp [frameCallbacks, hresp, hentry]
  refine ⟨?_, ?_, ?_, ?_, ?_⟩
  · simp [Session.dispatch, hresp, hentry]
  · unfold Session.readable
    rw [h1]
    exact heff
  · unfold Session.readable
    rw [h1]
    simp only
    rw [errorCount_frameEffects]
  · unfold Session.readable
    rw [h1]
    exact hcbs
  · rw [h2]

/-- Witness of C12: on a session with the entry 1 pending, a response numbered 3
followed by a response numbered 1. -/
theorem unmatched_response_harmless_witness :
    (relaySession.readable sampleCodec
        (([sampleResponse 3, sampleResponse 1].map sampleCodec.toBuffer).flatten)).2
      = [Effect.emit "pdu" (sampleResponse 3),
          Effect.emit "enquire_link_resp" (sampleResponse 3),
          Effect.emit "pdu" (sampleResponse 1),
          Effect.emit "enquire_link_resp" (sampleResponse 1),
          Effect.call 7 (sampleResponse 1)] :=
  (unmatched_response_harmless sampleCodec relaySession (sampleResponse 3)
    [sampleResponse 1] rfl rfl ⟨by decide, rfl, rfl⟩
    (by
      intro pdu h
      simp only [List.mem_singleton] at h
      subst h
      exact ⟨by decide, rfl, rfl⟩)
    rfl rfl rfl rfl).2.1

/-! ## Two sends under one sequence number -/

theorem send_callbacks (c : Codec) (s : Session) (pdu : PDU) (cb : Option Nat)
    (resolve : Handle) (hw : s.socket.writable = true) (hreq : pdu.isResponse = false) :
    (s.send c pdu cb resolve).2.1._callbacks
      = setCallback s._callbacks (s.send c pdu cb resolve).2.2.sequence_number resolve := by
  unfold Session.send Socket.write
  by_cases h0 : pdu.sequence_number = 0 <;>
    by_cases hm : s.sequence = 0x7FFFFFFF <;> simp [hw, hreq, h0, hm]

theorem send_writable (c : Codec) (s : Session) (pdu : PDU) (cb : Option Nat)
    (resolve : Handle) :
    (s.send c pdu cb resolve).2.1.socket.writable = s.socket.writable := by
  unfold Session.send Socket.write
  cases hw : s.socket.writable <;> cases hr : pdu.isResponse <;>
    by_cases h0 : pdu.sequence_number = 0 <;>
    by_cases hm : s.sequence = 0x7FFFFFFF <;> simp [h0, hm, hw]

theorem filter_delete_self (t : List (Nat × Handle)) (n : Nat) :
    (deleteCallback t n).filter (fun e => e.1 == n) = [] := by
  unfold deleteCallback
  rw [List.filter_filter]
  apply List.filter_eq_nil_iff.mpr
  intro e _
  by_cases h : e.1 = n <;> simp [h]

theorem lacks_overwrite (t : List (Nat × Handle)) (n : Nat) (h1 h2 : Handle)
    (hne : h1 ≠ h2) (ht : lacks t h1) :
    lacks (setCallback (setCallback t n h1) n h2) h1 := by
  intro e he
  unfold setCallback at he
  rcases List.mem_cons.mp he with he | he
  · subst he
    exact fun h => hne h.symm
  · unfold deleteCallback at he
    have he2 := List.mem_filter.mp he
    rcases List.mem_cons.mp he2.1 with he3 | he3
    · subst he3
      simp at he2
    · exact ht e (List.mem_filter.mp he3).1

/-- C20. Two non-response PDUs are sent on a writable socket, the second getting
the sequence number `n` of the first while the first is still pending. Then the
correlation table holds a single entry under `n`, with the handle of the second
send; a response numbered `n` calls that handle only; and the handle of the
first send, which is in the table nowhere else, is never called by anything that
happens later. -/
theorem collision_overwrites (c : Codec) (s : Session) (p1 p2 r : PDU)
    (cb1 cb2 : Option Nat) (h1 h2 : Handle) (hw : s.socket.writable = true)
    (hreq1 : p1.isResponse = false) (hreq2 : p2.isResponse = false) (hne : h1 ≠ h2)
    (hfresh : lacks s._callbacks h1)
    (hsame : ((s.send c p1 cb1 h1).2.1.send c p2 cb2 h2).2.2.sequence_number
      = (s.send c p1 cb1 h1).2.2.sequence_number)
    (hbusy : s._busy = false) (hpaused : s.paused = false)
    (hcl : s._command_length = none) (hbuf : s.socket.readBuffer = [])
    (henc : c.Encodes r) (hresp : r.isResponse = true)
    (hn : r.sequence_number = (s.send c p1 cb1 h1).2.2.sequence_number) :
    getCallback (s.send c p1 cb1 h1).2.1._callbacks
      (s.send c p1 cb1 h1).2.2.sequence_number = some h1 ∧
    getCallback ((s.send c p1 cb1 h1).2.1.send c p2 cb2 h2).2.1._callbacks
      (s.send c p1 cb1 h1).2.2.sequence_number = some h2 ∧
    (((s.send c p1 cb1 h1).2.1.send c p2 cb2 h2).2.1._callbacks.filter
      (fun e => e.1 == (s.send c p1 cb1 h1).2.2.sequence_number)).length = 1 ∧
    (((s.send c p1 cb1 h1).2.1.send c p2 cb2 h2).2.1.readable c (c.toBuffer r)).2
      = [Effect.emit "pdu" r, Effect.emit r.command r, Effect.call h2 r] ∧
    ∀ ops : List Op, (∀ op ∈ ops, op.handle ≠ some h1) →
      calls h1 (((s.send c p1 cb1 h1).2.1.send c p2 cb2 h2).2.1.run c ops).2 = false := by
  have hw1 : (s.send c p1 cb1 h1).2.1.socket.writable = true :=
    (send_writable c s p1 cb1 h1).trans hw
  have hcb1 := send_callbacks c s p1 cb1 h1 hw hreq1
  have hcb2 := send_callbacks c (s.send c p1 cb1 h1).2.1 p2 cb2 h2 hw1 hreq2
  rw [hsame, hcb1] at hcb2
  obtain ⟨fb1, fp1, fc1, fr1, _⟩ := send_fields c s p1 cb1 h1
  obtain ⟨fb2, fp2, fc2, fr2, _⟩ := send_fields c (s.send c p1 cb1 h1).2.1 p2 cb2 h2
  have hreg2 : getCallback ((s.send c p1 cb1 h1).2.1.send c p2 cb2 h2).2.1._callbacks
      (s.send c p1 cb1 h1).2.2.sequence_number = some h2 := by
    rw [hcb2]
    simp [setCallback, getCallback]
  refine ⟨send_registers c s p1 cb1 h1 hw hreq1, hreg2, ?_, ?_, fun ops hops => ?_⟩
  · rw [hcb2]
    simp [setCallback, List.filter_cons, filter_delete_self]
  · have h := response_completes c ((s.send c p1 cb1 h1).2.1.send c p2 cb2 h2).2.1 r h2
      henc hresp ((fb2.trans fb1).trans hbusy) ((fp2.trans fp1).trans hpaused)
      ((fc2.trans fc1).trans hcl) ((fr2.trans fr1).trans hbuf) (by rw [hn]; exact hreg2)
    rw [h]
  · apply run_lacks c h1 ops _ hops
    rw [hcb2]
    exact lacks_overwrite _ _ _ _ hne hfresh

/-- Witness of C20: two requests relayed with the sequence number 5, then the
response numbered 5. -/
theorem collision_overwrites_witness :
    ((((Session.new sampleSocket).send sampleCodec { sampleRequest with sequence_number := 5 }
        none 7).2.1.send sampleCodec { sampleRequest with sequence_number := 5 }
        none 9).2.1.readable sampleCodec (sampleCodec.toBuffer (sampleResponse 5))).2
      = [Effect.emit "pdu" (sampleResponse 5),
          Effect.emit "enquire_link_resp" (sampleResponse 5),
          Effect.call 9 (sampleResponse 5)] :=
  (collision_overwrites sampleCodec (Session.new sampleSocket)
    { sampleRequest with sequence_number := 5 } { sampleRequest with sequence_number := 5 }
    (sampleResponse 5) none none 7 9 rfl rfl rfl (by decide)
    (by intro e he; simp [Session.new] at he) rfl rfl rfl rfl rfl
    ⟨by decide, rfl, rfl⟩ rfl rfl).2.2.2.1

/-! ## Range of the sequence counter -/

theorem extractLoop_sequence (c : Codec) :
    ∀ (n : Nat) (s : Session), (Session.extractLoop c n s).1.sequence = s.sequence := by
  intro n
  induction n with
  | zero => intro s; rfl
  | succ n ih =>
    intro s
    rw [Session.extractLoop]
    by_cases hp : s.paused = true
    · simp [hp]
    · simp only [hp, Bool.false_eq_true, if_false]
      obtain ⟨k, cl, hs⟩ := tryRead_session c s
      cases htry : s.tryRead c with
      | stop s1 =>
        rw [htry] at hs
        simp only [TryResult.session] at hs
        simp [hs]
      | thrown s1 e =>
        rw [htry] at hs
        simp only [TryResult.session] at hs
        simp [hs]
      | decoded s1 pdu =>
        rw [htry] at hs
        simp only [TryResult.session] at hs
        simp only
        rw [ih, (dispatch_fields s1 pdu).2.2.2.2.1, hs]

theorem extractPDUs_sequence (c : Codec) (s : Session) :
    (s._extractPDUs c).1.sequence = s.sequence := by
  unfold Session._extractPDUs
  by_cases hb : s._busy = true
  · simp [hb]
  · simp only [hb, Bool.false_eq_true, if_false]
    rw [extractLoop_sequence]

theorem send_sequence_le (c : Codec) (s : Session) (pdu : PDU) (cb : Option Nat)
    (resolve : Handle) (h : s.sequence ≤ 0x7FFFFFFF) :
    (s.send c pdu cb resolve).2.1.sequence ≤ 0x7FFFFFFF := by
  unfold Session.send Socket.write
  cases hw : s.socket.writable <;> cases hr : pdu.isResponse <;>
    by_cases h0 : pdu.sequence_number = 0 <;>
    by_cases hm : s.sequence = 0x7FFFFFFF <;> simp [h0, hm, hw] <;> omega

theorem step_sequence_le (c : Codec) (s : Session) (op : Op) (h : s.sequence ≤ 0x7FFFFFFF) :
    (s.step c op).1.sequence ≤ 0x7FFFFFFF := by
  cases op with
  | readable chunk =>
    simp only [Session.step, Session.readable]
    rw [extractPDUs_sequence]
    exact h
  | send pdu cb resolve => exact send_sequence_le c s pdu cb resolve h
  | writeDone =>
    simp only [Session.step, Session.writeDone]
    cases hq : s.socket.writeCallbacks with
    | nil => exact h
    | cons e rest =>
      obtain ⟨pdu, cb⟩ := e
      exact h
  | pause => exact h
  | resume =>
    simp only [Session.step, Session.resume]
    rw [extractPDUs_sequence]
    exact h
  | connect => simp [Session.step, Session.connect]

theorem run_sequence_le (c : Codec) :
    ∀ (ops : List Op) (s : Session), s.sequence ≤ 0x7FFFFFFF →
      (s.run c ops).1.sequence ≤ 0x7FFFFFFF := by
  intro ops
  induction ops with
  | nil => intro s h; exact h
  | cons op ops ih =>
    intro s h
    rw [Session.run]
    exact ih _ (step_sequence_le c s op h)

/-- C17. In every state reached from a newly constructed session by `send` calls
(and by any other event or call of the model), the counter is at most
`0x7FFFFFFF`; a `send` that allocates a sequence number there gives a number in
`[1, 0x7FFFFFFF]`, which is the counter afterwards; and a `send` of a PDU whose
sequence number is already set leaves the counter where it is. -/
theorem sequence_range (c : Codec) (sock : Socket) (ops : List Op) (pdu : PDU)
    (cb : Option Nat) (resolve : Handle) :
    ((Session.new sock).run c ops).1.sequence ≤ 0x7FFFFFFF ∧
    (((Session.new sock).run c ops).1.socket.writable = true → pdu.isResponse = false →
      pdu.sequence_number = 0 →
      1 ≤ (((Session.new sock).run c ops).1.send c pdu cb resolve).2.2.sequence_number ∧
      (((Session.new sock).run c ops).1.send c pdu cb resolve).2.2.sequence_number
        ≤ 0x7FFFFFFF ∧
      (((Session.new sock).run c ops).1.send c pdu cb resolve).2.1.sequence
        = (((Session.new sock).run c ops).1.send c pdu cb resolve).2.2.sequence_number) ∧
    (pdu.sequence_number ≠ 0 →
      (((Session.new sock).run c ops).1.send c pdu cb resolve).2.1.sequence
        = ((Session.new sock).run c ops).1.sequence) := by
  have hinv := run_sequence_le c ops (Session.new sock) (by simp [Session.new])
  generalize ((Session.new sock).run c ops).1 = s at hinv ⊢
  refine ⟨hinv, fun hw hreq h0 => ?_, fun hn => ?_⟩
  · unfold Session.send Socket.write
    by_cases hm : s.sequence = 0x7FFFFFFF
    · simp [h0, hm, hw, hreq]
    · simp [h0, hm, hw, hreq]
      omega
  · unfold Session.send Socket.write
    cases hw : s.socket.writable <;> cases hr : pdu.isResponse <;> simp [hn, hw]

/-- Witness of C17: on a writable socket, the allocation that follows a first
`send` gives a number of at least 1. -/
theorem sequence_range_witness :
    1 ≤ (((Session.new sampleSocket).run sampleCodec [Op.send sampleRequest none 7]).1.send
      sampleCodec sampleRequest none 9).2.2.sequence_number :=
  ((sequence_range sampleCodec sampleSocket [Op.send sampleRequest none 7] sampleRequest
    none 9).2.1 rfl rfl rfl).1

/-! ## The registry of a server -/

theorem take_drop_indexOf (xs : List Nat) (x : Nat) (h : x ∈ xs) :
    xs.take (xs.indexOf x) ++ xs.drop (xs.indexOf x + 1) = xs.erase x := by
  induction xs with
  | nil => simp at h
  | cons y ys ih =>
    by_cases hy : y = x
    · subst hy
      simp
    · have hmem : x ∈ ys := by
        rcases List.mem_cons.mp h with h1 | h1
        · exact absurd h1.symm hy
        · exact h1
      have hne : ¬ (y == x) = true := by simpa using hy
      rw [List.indexOf_cons_ne _ hy, List.erase_cons_tail hne]
      simp only [List.take_succ_cons, List.drop_succ_cons, List.cons_append]
      rw [ih hmem]

theorem closeHandler_registered (srv : Server) (x : Nat) (h : x ∈ srv.sessions) :
    (srv.closeHandler x).sessions = srv.sessions.erase x := by
  have hlt : srv.sessions.indexOf x < srv.sessions.length := List.indexOf_lt_length.mpr h
  have hnn : ¬ ((srv.sessions.indexOf x : Int) < 0) := by omega
  simp only [Server.closeHandler, jsSplice, jsIndexOf, h, if_true, hnn, if_false,
    Int.toNat_ofNat, Nat.min_eq_left (Nat.le_of_lt hlt)]
  exact take_drop_indexOf _ _ h

/-- The handler run for a session that is not in the registry removes the last
session of the registry: `indexOf` gives `-1` and `splice(-1, 1)` deletes the
last element. -/
theorem closeHandler_absent (srv : Server) (x : Nat) (h : x ∉ srv.sessions) :
    (srv.closeHandler x).sessions = srv.sessions.dropLast := by
  have hfirst : ((srv.sessions.length : Int) + -1).toNat = srv.sessions.length - 1 := by omega
  simp only [Server.closeHandler, jsSplice, jsIndexOf, h, if_false, Int.reduceNeg,
    Int.reduceLT, if_true, hfirst]
  rw [List.dropLast_eq_take]
  have hdrop : List.drop (srv.sessions.length - 1 + 1) srv.sessions = [] :=
    List.drop_of_length_le (by omega)
  rw [hdrop, List.append_nil]

theorem history_open :
    ∀ (events : List ServerEvent) (accepted closed : List Nat) (srv : Server),
      orderly accepted closed events = true → accepted.Nodup →
      (∀ x ∈ closed, x ∈ accepted) →
      srv.sessions = accepted.filter (fun x => !closed.contains x) →
      (srv.history events).sessions
        = (accepted ++ acceptedSessions events).filter
            (fun x => !(closed ++ closedSessions events).contains x) ∧
      (accepted ++ acceptedSessions events).Nodup := by
  intro events
  induction events with
  | nil =>
    intro accepted closed srv _ hnd _ hs
    refine ⟨?_, ?_⟩
    · simp [Server.history, acceptedSessions, closedSessions, hs]
    · simpa [acceptedSessions] using hnd
  | cons e rest ih =>
    intro accepted closed srv hord hnd hsub hs
    cases e with
    | connection x =>
      simp only [orderly, Bool.and_eq_true, Bool.not_eq_true'] at hord
      obtain ⟨hx0, hrest⟩ := hord
      have hx : x ∉ accepted := by simpa using hx0
      have hxc : x ∉ closed := fun hc => hx (hsub x hc)
      have h := ih (accepted ++ [x]) closed (srv.handle (.connection x)) hrest
        (List.Nodup.append hnd (List.nodup_singleton x) (by simpa using hx))
        (fun y hy => List.mem_append_left _ (hsub y hy))
        (by simp [Server.handle, Server.connection, hs, List.filter_append, hxc])
      simpa [Server.history, acceptedSessions, closedSessions, List.append_assoc] using h
    | close x =>
      simp only [orderly, Bool.and_eq_true, Bool.not_eq_true'] at hord
      obtain ⟨⟨hx0, hxc0⟩, hrest⟩ := hord
      have hx : x ∈ accepted := by simpa using hx0
      have hxc : x ∉ closed := by simpa using hxc0
      have hmem : x ∈ srv.sessions := by
        rw [hs]
        simp [List.mem_filter, hx, hxc]
      have hnd2 : srv.sessions.Nodup := by
        rw [hs]
        exact hnd.filter _
      have hstep : (srv.handle (.close x)).sessions
          = accepted.filter (fun y => !(closed ++ [x]).contains y) := by
        simp only [Server.handle]
        rw [closeHandler_registered srv x hmem, hnd2.erase_eq_filter, hs, List.filter_filter]
        apply List.filter_congr
        intro y _
        by_cases hy : y = x <;> simp [hy]
      have h := ih accepted (closed ++ [x]) (srv.handle (.close x)) hrest hnd
        (by
          intro y hy
          rcases List.mem_append.mp hy with hy | hy
          · exact hsub y hy
          · simp only [List.mem_singleton] at hy
            rw [hy]; exact hx)
        hstep
      simpa [Server.history, acceptedSessions, closedSessions, List.append_assoc] using h

/-- C13. In every state reached from a new `Server` (or `SecureServer`, whose
constructor holds the same listener) by accepted connections, each bringing a
new session, and by one `close` per accepted connection, `sessions` holds exactly
the sessions accepted and not yet closed, once each, in order of acceptance. In
such a state an accepted connection appends its session at the end, and the
`close` of a registered session `x` removes `x` and nothing else. -/
theorem registry_invariant (events : List ServerEvent) (x : Nat)
    (h : orderly [] [] events = true) :
    (Server.new.history events).sessions = openSessions events ∧
    (Server.new.history events).sessions.Nodup ∧
    ((Server.new.history events).connection x).sessions
      = (Server.new.history events).sessions ++ [x] ∧
    (x ∈ (Server.new.history events).sessions →
      ((Server.new.history events).closeHandler x).sessions
        = (Server.new.history events).sessions.filter (· ≠ x)) := by
  have hopen := history_open events [] [] Server.new h List.nodup_nil (by simp)
    (by simp [Server.new])
  simp only [List.nil_append] at hopen
  have hnd : (Server.new.history events).sessions.Nodup := by
    rw [hopen.1]
    exact hopen.2.filter _
  refine ⟨hopen.1, hnd, rfl, fun hx => ?_⟩
  rw [closeHandler_registered _ x hx, hnd.erase_eq_filter]
  apply List.filter_congr
  intro y _
  by_cases hy : y = x <;> simp [hy]

/-- Witness of C13: three sessions accepted, the second one closed. -/
theorem registry_invariant_witness :
    (Server.new.history [.connection 1, .connection 2, .connection 3, .close 2]).sessions
      = [1, 3] :=
  (registry_invariant [.connection 1, .connection 2, .connection 3, .close 2] 0
    (by decide)).1

/-- C18, the failing case. When the `close` handler of a registered session `x`
runs a second time, `indexOf` no longer finds `x` and `splice(-1, 1)` removes
the last session that is still registered, a session other than `x`. -/
theorem closeHandler_twice (srv : Server) (x : Nat) (hnd : srv.sessions.Nodup)
    (hx : x ∈ srv.sessions) :
    (srv.closeHandler x).sessions = srv.sessions.erase x ∧
    ((srv.closeHandler x).closeHandler x).sessions = (srv.sessions.erase x).dropLast := by
  have h1 := closeHandler_registered srv x hx
  refine ⟨h1, ?_⟩
  rw [closeHandler_absent (srv.closeHandler x) x (by rw [h1]; exact hnd.not_mem_erase), h1]

/-- Witness of the failing case of C18: with sessions 1 and 2 registered, the
second run of the handler of session 1 removes session 2. -/
theorem closeHandler_twice_witness :
    (((Server.new.history [.connection 1, .connection 2]).closeHandler 1).closeHandler
      1).sessions = [] :=
  (closeHandler_twice (Server.new.history [.connection 1, .connection 2]) 1 (by decide)
    (by decide)).2

/-! ## The keepalive timer -/

theorem consistent_iff (w : TimedSession) :
    w.consistent = true ↔
      w.timers = if w.session._interval = 0 then [] else [w.session._interval] := by
  unfold TimedSession.consistent
  by_cases h : w.session._interval = 0 <;> simp [h]

theorem set_period_consistent (w : TimedSession) (val : Nat) (hw : w.consistent = true) :
    (w.set_auto_enquire_link_period val).consistent = true ∧
    (w.set_auto_enquire_link_period val).timers
      = [(w.set_auto_enquire_link_period val).session._interval] := by
  have h := (consistent_iff w).mp hw
  obtain ⟨s, timers, created⟩ := w
  simp only at h
  by_cases hi : s._interval = 0
  · simp only [hi, if_true] at h
    subst h
    simp [TimedSession.set_auto_enquire_link_period, TimedSession.consistent, hi]
  · simp only [hi, if_false] at h
    subst h
    simp [TimedSession.set_auto_enquire_link_period, TimedSession.consistent, hi,
      TimedSession.clearInterval]

theorem assignAll_consistent :
    ∀ (vals : List Nat) (w : TimedSession), w.consistent = true →
      (w.assignAll vals).consistent = true := by
  intro vals
  induction vals with
  | nil => intro w hw; exact hw
  | cons val rest ih =>
    intro w hw
    rw [TimedSession.assignAll]
    exact ih _ (set_period_consistent w val hw).1

theorem onClose_clears (w : TimedSession) (hw : w.consistent = true) :
    w.onClose.1.timers = [] ∧ w.onClose.1.session._interval = 0 := by
  have h := (consistent_iff w).mp hw
  obtain ⟨s, timers, created⟩ := w
  simp only at h
  by_cases hi : s._interval = 0
  · simp only [hi, if_true] at h
    subst h
    simp [TimedSession.onClose, hi]
  · simp only [hi, if_false] at h
    subst h
    simp [TimedSession.onClose, hi, TimedSession.clearInterval]

theorem onError_clears (w : TimedSession) (e : String) (hw : w.consistent = true) :
    (w.onError e true).1 = none ∧ (w.onError e true).2.1.timers = [] ∧
    (w.onError e true).2.1.session._interval = 0 := by
  have h := (consistent_iff w).mp hw
  obtain ⟨s, timers, created⟩ := w
  simp only at h
  by_cases hi : s._interval = 0
  · simp only [hi, if_true] at h
    subst h
    simp [TimedSession.onError, hi]
  · simp only [hi, if_false] at h
    subst h
    simp [TimedSession.onError, hi, TimedSession.clearInterval]

theorem assignAll_installed :
    ∀ (vals : List Nat) (w : TimedSession), vals ≠ [] →
      (w.assignAll vals).session._interval ≠ 0 := by
  intro vals
  induction vals with
  | nil => intro w h; exact absurd rfl h
  | cons val rest ih =>
    intro w _
    rw [TimedSession.assignAll]
    cases rest with
    | nil => simp [TimedSession.assignAll, TimedSession.set_auto_enquire_link_period]
    | cons v2 rest2 => exact ih _ (by simp)

/-- What holds of the timer: take a session whose only active timer, if any, is
the one kept in `_interval` (as for a new session), and any sequence of
assignments to `auto_enquire_link_period`. Each assignment clears the timer
installed before, so at most one timer is active. The socket event `close`, and
the socket event `error` on a session that has a listener for `error`, then
leaves no timer active and `_interval` at `0`; whatever timer comes due
afterwards, no keepalive tick runs. -/
theorem keepalive_cleared (c : Codec) (w : TimedSession) (vals : List Nat)
    (e : String) (id : Nat) (resolve : Handle) (hw : w.consistent = true) :
    (w.assignAll vals).consistent = true ∧
    (w.assignAll vals).timers.length ≤ 1 ∧
    (w.assignAll vals).onClose.1.timers = [] ∧
    (w.assignAll vals).onClose.1.session._interval = 0 ∧
    ((w.assignAll vals).onError e true).2.1.timers = [] ∧
    ((w.assignAll vals).onError e true).2.1.session._interval = 0 ∧
    (w.assignAll vals).onClose.1.fire c id resolve = none ∧
    ((w.assignAll vals).onError e true).2.1.fire c id resolve = none := by
  have hc := assignAll_consistent vals w hw
  have hclose := onClose_clears _ hc
  have herror := onError_clears _ e hc
  refine ⟨hc, ?_, hclose.1, hclose.2, herror.2.1, herror.2.2, ?_, ?_⟩
  · rw [(consistent_iff _).mp hc]
    split <;> simp
  · simp [TimedSession.fire, hclose.1]
  · simp [TimedSession.fire, herror.2.1]

/-- C16, the failing case. On a session that has no listener for `error` (a
session is constructed without any) and on which `auto_enquire_link_period` has
been assigned, once or several times, the socket event `error` does not cancel
the keepalive: `this.emit('error', e)` throws `e` out of the handler before
`clearInterval` is reached, so the session is left as it was, the timer kept in
`_interval` is still the active one, and it still runs the keepalive tick when
it comes due. -/
theorem keepalive_survives_unhandled_error (c : Codec) (w : TimedSession)
    (vals : List Nat) (e : String) (resolve : Handle) (hw : w.consistent = true)
    (hvals : vals ≠ []) :
    ((w.assignAll vals).onError e false).1 = some e ∧
    ((w.assignAll vals).onError e false).2.1 = w.assignAll vals ∧
    ((w.assignAll vals).onError e false).2.1.session._interval ≠ 0 ∧
    ((w.assignAll vals).onError e false).2.1.timers
      = [(w.assignAll vals).session._interval] ∧
    (((w.assignAll vals).onError e false).2.1.fire c
      (w.assignAll vals).session._interval resolve).isSome = true := by
  have hc := (consistent_iff _).mp (assignAll_consistent vals w hw)
  have hi := assignAll_installed vals w hvals
  simp only [hi, if_false] at hc
  refine ⟨rfl, rfl, hi, hc, ?_⟩
  simp [TimedSession.onError, TimedSession.fire, hc]

/-- Witness of the failing case of C16: a period assigned on a new session, then
the socket event `error` with no listener for `error` on the session. -/
theorem keepalive_survives_unhandled_error_witness :
    (((TimedSession.new sampleSocket).assignAll [30000]).onError "ECONNRESET" false).1
      = some "ECONNRESET" ∧
    (((TimedSession.new sampleSocket).assignAll [30000]).onError "ECONNRESET" false).2.1.timers
      = [1] :=
  ⟨(keepalive_survives_unhandled_error sampleCodec (TimedSession.new sampleSocket) [30000]
      "ECONNRESET" 9 (by decide) (by decide)).1,
    (keepalive_survives_unhandled_error sampleCodec (TimedSession.new sampleSocket) [30000]
      "ECONNRESET" 9 (by decide) (by decide)).2.2.2.1⟩

/-! ## Default ports and the scheme check of `connect` -/

theorem connect_accepts (parse : String → UrlObject) (text : String)
    (h : (jsStartsWith text "smpp://" || jsStartsWith text "ssmpp://") = true) :
    connect parse (.string text)
      = .ok { host := (parse text).hostname,
              port :=
                match (parse text).port with
                | some p =>
                  if p == "" then
                    PortValue.number (if (parse text).protocol == some "ssmpp:" then 3550 else 2775)
                  else .text p
                | none =>
                  PortValue.number (if (parse text).protocol == some "ssmpp:" then 3550 else 2775),
              tls := (parse text).protocol == some "ssmpp:" } := by
  simp only [connect, h, Bool.not_true, Bool.false_eq_true, if_false]

/-- C14. `Server.listen` called without options, or with a callback only, listens
on port 2775, `SecureServer.listen` on port 3550. For a URL that passes the
scheme check and whose parsed protocol is `ssmpp:` exactly when it starts with
`ssmpp://`, `connect` selects TLS exactly for `ssmpp://`, uses the port of the
URL as given when there is one, and otherwise uses 2775 without TLS and 3550
with TLS: the default port on which the server of the same transport listens.
The two defaults differ. -/
theorem default_ports (parse : String → UrlObject) (text : String) (f : Nat)
    (callback : Option Nat)
    (hscheme : (jsStartsWith text "smpp://" || jsStartsWith text "ssmpp://") = true)
    (hproto : (parse text).protocol = some "ssmpp:" ↔ jsStartsWith text "ssmpp://" = true) :
    Server.listen .undefined callback = .ok (.object (some 2775), none) ∧
    Server.listen (.function f) callback = .ok (.object (some 2775), some f) ∧
    SecureServer.listen .undefined callback = .ok (.object (some 3550), none) ∧
    SecureServer.listen (.function f) callback = .ok (.object (some 3550), some f) ∧
    (∃ opts, connect parse (.string text) = .ok opts ∧
      opts.tls = jsStartsWith text "ssmpp://" ∧
      (∀ p, (parse text).port = some p → p ≠ "" → opts.port = .text p) ∧
      ((parse text).port = none →
        opts.port = .number (if opts.tls then 3550 else 2775) ∧
        (if opts.tls then SecureServer.listen .undefined callback
          else Server.listen .undefined callback)
          = .ok (.object (some (if opts.tls then 3550 else 2775)), none))) ∧
    Server.listen .undefined callback ≠ SecureServer.listen .undefined callback := by
  refine ⟨rfl, rfl, rfl, rfl, ⟨_, connect_accepts parse text hscheme, ?_, ?_, ?_⟩, ?_⟩
  · by_cases hs : jsStartsWith text "ssmpp://" = true
    · simp [hs, hproto.mpr hs]
    · have hp : (parse text).protocol ≠ some "ssmpp:" := fun h => hs (hproto.mp h)
      simp [hs, hp]
  · intro p hp hne
    simp [hp, hne]
  · intro hp
    refine ⟨by simp [hp], ?_⟩
    by_cases ht : ((parse text).protocol == some "ssmpp:") = true
    · simp [ht, SecureServer.listen]
    · simp [ht, Server.listen]
  · intro h
    simp [Server.listen, SecureServer.listen] at h

/-- Witness of C14: the URL of the test of the secure connection. -/
theorem default_ports_witness :
    connect sampleParse (.string "ssmpp://localhost")
      = .ok { host := some "localhost", port := .number 3550, tls := true } ∧
    SecureServer.listen (.function 1) none = .ok (.object (some 3550), some 1) :=
  ⟨rfl,
    (default_ports sampleParse "ssmpp://localhost" 1 none (by decide) (by decide)).2.2.2.1⟩

/-- C15. `connect` called with something that is not a string, or with a string
that begins with neither `smpp://` nor `ssmpp://`, ends in a failed assertion
before `url.parse` is called and before a session is constructed, so that no
socket is opened; for every string that begins with one of the two prefixes the
scheme check passes and the session is constructed. -/
theorem connect_scheme_check (parse : String → UrlObject) (text : String) :
    connect parse .other = .error "connect(): url is required" ∧
    ((jsStartsWith text "smpp://" || jsStartsWith text "ssmpp://") = false →
      connect parse (.string text) = .error "url scheme must be smpp or ssmpp") ∧
    ((jsStartsWith text "smpp://" || jsStartsWith text "ssmpp://") = true →
      ∃ opts, connect parse (.string text) = .ok opts) := by
  refine ⟨rfl, fun h => ?_, fun h => ⟨_, connect_accepts parse text h⟩⟩
  simp only [connect, h, Bool.not_false, if_true]

/-- Witness of C15: a URL with the scheme `http` is refused, the URL of the test
is accepted. -/
theorem connect_scheme_check_witness :
    connect sampleParse (.string "http://localhost")
      = .error "url scheme must be smpp or ssmpp" ∧
    connect sampleParse (.string "smpp://localhost:2776")
      = .ok { host := some "localhost", port := .text "2776", tls := false } :=
  ⟨(connect_scheme_check sampleParse "http://localhost").2.1 (by decide), rfl⟩

/-! ## Order of the notifications -/

theorem dispatch_steps (s : Session) (pdu : PDU) :
    s.dispatch pdu = ((s.dispatchSteps pdu).1, (s.dispatchSteps pdu).2.map Prod.snd) := by
  cases h1 : pdu.isResponse <;> cases h2 : getCallback s._callbacks pdu.sequence_number <;>
    simp [Session.dispatch, Session.dispatchSteps, h1, h2]

theorem dispatchSteps_snapshot (s : Session) (pdu : PDU) :
    ∀ x ∈ (s.dispatchSteps pdu).2, x.1 = { s with _command_length := none } := by
  cases h1 : pdu.isResponse <;> cases h2 : getCallback s._callbacks pdu.sequence_number <;>
    simp [Session.dispatchSteps, h1, h2]

/-- The loop listing its effects with the sessions is the loop: same session
afterwards, same effects in the same order. -/
theorem extractLoop_steps (c : Codec) :
    ∀ (n : Nat) (s : Session),
      Session.extractLoop c n s
        = ((Session.extractLoopSteps c n s).1,
            (Session.extractLoopSteps c n s).2.map Prod.snd) := by
  intro n
  induction n with
  | zero => intro s; rfl
  | succ n ih =>
    intro s
    rw [Session.extractLoop, Session.extractLoopSteps]
    by_cases hp : s.paused = true
    · simp [hp]
    · simp only [hp, Bool.false_eq_true, if_false]
      cases htry : s.tryRead c with
      | stop s1 => rfl
      | thrown s1 e => rfl
      | decoded s1 pdu =>
        simp only [dispatch_steps, ih, List.map_append]

theorem readable_steps (c : Codec) (s : Session) (chunk : List Nat) :
    s.readable c chunk
      = ((s.readableSteps c chunk).1, (s.readableSteps c chunk).2.map Prod.snd) := by
  unfold Session.readable Session.readableSteps Session._extractPDUs Session.extractSteps
  by_cases hb : s._busy = true
  · simp [hb]
  · simp only [hb, Bool.false_eq_true, if_false]
    exact extractLoop_steps c _ _

theorem extractLoopSteps_frame (c : Codec) (s : Session) (pdu : PDU) (tail : List Nat)
    (n : Nat) (henc : c.Encodes pdu) (hpaused : s.paused = false)
    (hcl : s._command_length = none)
    (hbuf : s.socket.readBuffer = c.toBuffer pdu ++ tail) :
    Session.extractLoopSteps c (n + 1) s
      = ((Session.extractLoopSteps c n
            ((s.decodedAt (c.toBuffer pdu).length tail).dispatchSteps pdu).1).1,
          ((s.decodedAt (c.toBuffer pdu).length tail).dispatchSteps pdu).2
            ++ (Session.extractLoopSteps c n
              ((s.decodedAt (c.toBuffer pdu).length tail).dispatchSteps pdu).1).2) := by
  have htry := tryRead_frame c s pdu tail henc hcl hbuf
  rw [Session.extractLoopSteps]
  simp only [hpaused, Bool.false_eq_true, if_false, htry, Session.decodedAt]

theorem extractLoopSteps_empty (c : Codec) (s : Session) (n : Nat) (hn : 0 < n)
    (hpaused : s.paused = false) (hcl : s._command_length = none)
    (hbuf : s.socket.readBuffer = []) :
    Session.extractLoopSteps c n s = ({ s with _busy := false }, []) := by
  have h := extractLoop_empty c s n hn hpaused hcl hbuf
  rw [extractLoop_steps] at h
  cases n with
  | zero => omega
  | succ n =>
    rw [Session.extractLoopSteps] at h ⊢
    simp only [hpaused, Bool.false_eq_true, if_false] at h ⊢
    cases htry : s.tryRead c with
    | stop s1 =>
      rw [htry] at h
      simp only [Prod.mk.injEq] at h
      simp only [h.1]
    | thrown s1 e =>
      rw [htry] at h
      simp at h
    | decoded s1 pdu =>
      rw [htry] at h
      simp only [Prod.mk.injEq, List.map_append, List.append_eq_nil, List.map_eq_nil_iff] at h
      have hd := (congrArg Prod.snd (dispatch_steps s1 pdu)).symm
      rw [h.2.1] at hd
      cases h1 : pdu.isResponse <;>
        cases h2 : getCallback s1._callbacks pdu.sequence_number <;>
        simp [Session.dispatch, h1, h2] at hd

/-- C19. The statements that follow a successful decode, taken one after the
other with the session as it is at each effect (`Session.dispatchSteps`), for
every session and PDU, whatever length is pending: at every effect the session
is the one before the statements with only `_command_length` cleared, so the
length is cleared first and the entry of a response is still in the table when
its handle is called; the effects are the `pdu` event, the event named by
`pdu.command` and then, for a response with an entry, the call of the handle,
after which the entry is gone. These steps and the loop built on them give the
session and the effects of `Session.dispatch` and of the loop of `_extractPDUs`.
For two frames `f1`, `f2` in the buffer of an idle session, each is decoded with
its length still pending, and the run lists everything of `f1` before
everything of `f2`. -/
theorem notification_order (c : Codec) (s : Session) (f1 f2 : PDU)
    (henc1 : c.Encodes f1) (henc2 : c.Encodes f2) (hbusy : s._busy = false)
    (hpaused : s.paused = false) (hcl : s._command_length = none)
    (hbuf : s.socket.readBuffer = []) :
    (∀ (t : Session) (p : PDU),
      t.dispatch p = ((t.dispatchSteps p).1, (t.dispatchSteps p).2.map Prod.snd) ∧
      (∀ x ∈ (t.dispatchSteps p).2, x.1 = { t with _command_length := none }) ∧
      ∃ tail, (t.dispatchSteps p).2.map Prod.snd
          = Effect.emit "pdu" p :: Effect.emit p.command p :: tail ∧
        (tail = [] ∨ ∃ h, tail = [Effect.call h p] ∧ p.isResponse = true ∧
          getCallback t._callbacks p.sequence_number = some h ∧
          getCallback (t.dispatchSteps p).1._callbacks p.sequence_number = none)) ∧
    (∀ (n : Nat) (t : Session),
      Session.extractLoop c n t
        = ((Session.extractLoopSteps c n t).1,
            (Session.extractLoopSteps c n t).2.map Prod.snd)) ∧
    (s.entering (c.toBuffer f1 ++ c.toBuffer f2)).tryRead c
      = .decoded ((s.entering (c.toBuffer f1 ++ c.toBuffer f2)).decodedAt
          (c.toBuffer f1).length (c.toBuffer f2)) f1 ∧
    (((s.entering (c.toBuffer f1 ++ c.toBuffer f2)).decodedAt
        (c.toBuffer f1).length (c.toBuffer f2)).dispatchSteps f1).1.tryRead c
      = .decoded ((((s.entering (c.toBuffer f1 ++ c.toBuffer f2)).decodedAt
          (c.toBuffer f1).length (c.toBuffer f2)).dispatchSteps f1).1.decodedAt
            (c.toBuffer f2).length []) f2 ∧
    (s.readableSteps c (c.toBuffer f1 ++ c.toBuffer f2)).2
      = (((s.entering (c.toBuffer f1 ++ c.toBuffer f2)).decodedAt
          (c.toBuffer f1).length (c.toBuffer f2)).dispatchSteps f1).2
        ++ (((((s.entering (c.toBuffer f1 ++ c.toBuffer f2)).decodedAt
          (c.toBuffer f1).length (c.toBuffer f2)).dispatchSteps f1).1.decodedAt
            (c.toBuffer f2).length []).dispatchSteps f2).2 ∧
    s.readable c (c.toBuffer f1 ++ c.toBuffer f2)
      = ((s.readableSteps c (c.toBuffer f1 ++ c.toBuffer f2)).1,
          (s.readableSteps c (c.toBuffer f1 ++ c.toBuffer f2)).2.map Prod.snd) := by
  have hfields : ∀ (t : Session) (p : PDU),
      (t.dispatchSteps p).1.paused = t.paused ∧ (t.dispatchSteps p).1._command_length = none ∧
      (t.dispatchSteps p).1.socket = t.socket := by
    intro t p
    have h := congrArg Prod.fst (dispatch_steps t p)
    simp only at h
    rw [← h]
    obtain ⟨h1, h2, h3, _⟩ := dispatch_fields t p
    exact ⟨h3, h2, h1⟩
  have htry1 := tryRead_frame c (s.entering (c.toBuffer f1 ++ c.toBuffer f2)) f1
    (c.toBuffer f2) henc1 hcl rfl
  obtain ⟨g1, g2, g3⟩ := hfields ((s.entering (c.toBuffer f1 ++ c.toBuffer f2)).decodedAt
    (c.toBuffer f1).length (c.toBuffer f2)) f1
  have htry2 := tryRead_frame c
    (((s.entering (c.toBuffer f1 ++ c.toBuffer f2)).decodedAt
      (c.toBuffer f1).length (c.toBuffer f2)).dispatchSteps f1).1 f2 [] henc2 g2
    (by rw [g3]; simp [Session.decodedAt])
  refine ⟨fun t p => ⟨dispatch_steps t p, dispatchSteps_snapshot t p, ?_⟩,
    extractLoop_steps c, htry1, htry2, ?_, readable_steps c s _⟩
  · cases h1 : p.isResponse
    · exact ⟨[], by simp [Session.dispatchSteps, h1], Or.inl rfl⟩
    · cases h2 : getCallback t._callbacks p.sequence_number with
      | none => exact ⟨[], by simp [Session.dispatchSteps, h1, h2], Or.inl rfl⟩
      | some h =>
        exact ⟨[Effect.call h p], by simp [Session.dispatchSteps, h1, h2],
          Or.inr ⟨h, rfl, rfl, rfl,
            by simp [Session.dispatchSteps, h1, h2, getCallback_delete_self]⟩⟩
  · have hlen1 : 0 < (c.toBuffer f1).length := by have := henc1.1; omega
    have hstart : s.readableSteps c (c.toBuffer f1 ++ c.toBuffer f2)
        = Session.extractLoopSteps c ((c.toBuffer f1 ++ c.toBuffer f2).length + 1 + 1)
            (s.entering (c.toBuffer f1 ++ c.toBuffer f2)) := by
      simp [Session.readableSteps, Session.extractSteps, hbusy, hbuf, Session.passes,
        Session.entering]
    rw [hstart,
      extractLoopSteps_frame c (s.entering (c.toBuffer f1 ++ c.toBuffer f2)) f1
        (c.toBuffer f2) _ henc1 hpaused hcl rfl,
      extractLoopSteps_frame c
        (((s.entering (c.toBuffer f1 ++ c.toBuffer f2)).decodedAt
          (c.toBuffer f1).length (c.toBuffer f2)).dispatchSteps f1).1 f2 [] _ henc2
        (g1.trans hpaused) g2 (by rw [g3]; simp [Session.decodedAt])]
    obtain ⟨k1, k2, k3⟩ := hfields (((((s.entering (c.toBuffer f1 ++ c.toBuffer f2)).decodedAt
      (c.toBuffer f1).length (c.toBuffer f2)).dispatchSteps f1).1.decodedAt
        (c.toBuffer f2).length [])) f2
    rw [extractLoopSteps_empty c _ _ (by simp only [List.length_append]; omega)
      (k1.trans (g1.trans hpaused)) k2 (by rw [k3]; rfl)]
    simp

/-- Witness of C19: a response to the pending request 1 followed by a request, in
one chunk; each effect is shown with the pending length at that moment. -/
theorem notification_order_witness :
    (relaySession.readableSteps sampleCodec
        (sampleCodec.toBuffer (sampleResponse 1) ++ sampleCodec.toBuffer sampleRequest)).2.map
        (fun x => (x.1._command_length, x.2))
      = [(none, Effect.emit "pdu" (sampleResponse 1)),
          (none, Effect.emit "enquire_link_resp" (sampleResponse 1)),
          (none, Effect.call 7 (sampleResponse 1)),
          (none, Effect.emit "pdu" sampleRequest),
          (none, Effect.emit "enquire_link" sampleRequest)] := by
  rw [(notification_order sampleCodec relaySession (sampleResponse 1) sampleRequest
    ⟨by decide, rfl, rfl⟩ ⟨by decide, rfl, rfl⟩ rfl rfl rfl rfl).2.2.2.2.1]
  decide

end Smpp
